import Mathlib

/-!
Verification of the FileFlip ebook conversion pipeline (src/lib/ebook-utils.ts).

Strings are modelled as lists of characters (`Str`).  External collaborators
(the ZIP archive accessor, the DOM/XML markup accessor, the pdf-lib font
metric and image embedding capabilities, the pdf.js page renderer and the
system clock) are modelled as explicit parameters or small executable stand-ins,
as the specification designates them as interfaces.  JavaScript numbers are
modelled by `Rat` where fractional values occur and by `Nat` for counters.
-/

namespace FileFlip

abbrev Str := List Char

/-- JavaScript whitespace class (the ASCII part of the regex class \s). -/
def isWs (c : Char) : Bool :=
  c = ' ' || c = '\t' || c = '\n' || c = '\x0d' || c = Char.ofNat 11 || c = Char.ofNat 12

/-- The apostrophe character. -/
def apos : Char := Char.ofNat 39

def splitOnCharAux (sep : Char) : Str → Str → List Str
  | [], acc => [acc.reverse]
  | c :: cs, acc =>
    if c = sep then acc.reverse :: splitOnCharAux sep cs []
    else splitOnCharAux sep cs (c :: acc)

/-- JavaScript s.split(sep) for a single-character separator. -/
def splitOnChar (sep : Char) (s : Str) : List Str := splitOnCharAux sep s []

/-- JavaScript array.join(sep). -/
def joinSep (sep : Str) (xs : List Str) : Str := List.intercalate sep xs

/-- Last element of a JavaScript split (array.pop on the split result). -/
def lastSeg (sep : Char) (s : Str) : Str := ((splitOnChar sep s).reverse).headD []

/-- JavaScript idiom s.split(sep).pop() or s, used for basenames. -/
def basenameOf (s : Str) : Str :=
  let b := lastSeg '/' s
  if b = [] then s else b

/-- JavaScript s.trim (restricted to the ASCII whitespace that occurs here). -/
def jsTrim (s : Str) : Str :=
  ((s.dropWhile isWs).reverse.dropWhile isWs).reverse

def splitWsAux : Str → Str → List Str
  | [], acc => if acc = [] then [] else [acc.reverse]
  | c :: cs, acc =>
    if isWs c then
      if acc = [] then splitWsAux cs [] else acc.reverse :: splitWsAux cs []
    else splitWsAux cs (c :: acc)

/-- JavaScript text.split(regex \s+).filter(Boolean): the whitespace-separated
tokens of a string, with empties dropped. -/
def wsTokens (s : Str) : List Str := splitWsAux s []

def collapseWsAux : Str → Bool → Str
  | [], _ => []
  | c :: cs, pending =>
    if isWs c then collapseWsAux cs true
    else if pending then ' ' :: c :: collapseWsAux cs false
    else c :: collapseWsAux cs false

/-- JavaScript s.replace(regex \s+ global, a single space): collapse every
whitespace run to one space. -/
def collapseWs (s : Str) : Str :=
  match s with
  | [] => []
  | c :: cs =>
    if isWs c then ' ' :: collapseWsAux cs false
    else c :: collapseWsAux cs false

/-- JavaScript escapeXml from the source: amp, lt, gt and double quote. -/
def escapeXml (s : Str) : Str :=
  s.flatMap fun c =>
    if c = '&' then "&amp;".data
    else if c = '<' then "&lt;".data
    else if c = '>' then "&gt;".data
    else if c = '"' then "&quot;".data
    else [c]

/-- Case fold for the ASCII-case-insensitive regex comparisons of the source. -/
def lowerC (c : Char) : Char := c.toLower

def lowerS (s : Str) : Str := s.map lowerC

/-- List starts-with test (used for string matching). -/
def startsWith : Str → Str → Bool
  | [], _ => true
  | _ :: _, [] => false
  | p :: ps, c :: cs => p = c && startsWith ps cs

/-- Case-insensitive starts-with. -/
def startsWithCI (pat s : Str) : Bool := startsWith (lowerS pat) (lowerS s)

/-- Suffix test, used for the extension regexes anchored with a dollar sign. -/
def endsWith (suf s : Str) : Bool := startsWith suf.reverse s.reverse

def endsWithCI (suf s : Str) : Bool := endsWith (lowerS suf) (lowerS s)

/-- Substring containment test. -/
def containsStr : Str → Str → Bool
  | _, [] => false
  | pat, c :: cs => startsWith pat (c :: cs) || containsStr pat cs

def containsStrCI (pat s : Str) : Bool :=
  if pat = [] then true else containsStr (lowerS pat) (lowerS s)

/-- JavaScript s.replace(pat, rep) with a plain-string pattern: replace the
first occurrence only (identity when the pattern does not occur). -/
def replaceFirstStr (pat rep : Str) : Str → Str
  | [] => []
  | c :: cs =>
    if startsWith pat (c :: cs) && pat ≠ [] then rep ++ (c :: cs).drop pat.length
    else c :: replaceFirstStr pat rep cs

/- -----------------------------------------------------------------
   Href resolver (inner functions normalize / joinHref of
   parseEPUBToModel, src/lib/ebook-utils.ts lines 297-309)
------------------------------------------------------------------ -/

def normalizeSegs : List Str → List Str → List Str
  | [], stack => stack
  | seg :: rest, stack =>
    if seg = [] then normalizeSegs rest stack
    else if seg = ['.'] then normalizeSegs rest stack
    else if seg = ['.', '.'] then normalizeSegs rest stack.dropLast
    else normalizeSegs rest (stack ++ [seg])

/-- The href normalizer: split on the slash, drop empty and dot segments, pop
on dot-dot (silently a no-op when the stack is empty), re-join. -/
def normalize (p : Str) : Str :=
  joinSep ['/'] (normalizeSegs (splitOnChar '/' p) [])

/-- joinHref: join a relative reference against the directory of a base href. -/
def joinHref (baseHref rel : Str) : Str :=
  let base := joinSep ['/'] ((splitOnChar '/' baseHref).dropLast)
  if base = [] then rel else base ++ '/' :: rel

/-- C3: the href normalizer drops empty and dot segments and pops on dot-dot,
ignoring dot-dot on an empty stack, so normalize of a/b/../c is a/c, of
./x/./y is x/y, and of .. alone is the empty string rather than an error. -/
theorem C3_normalize_examples :
    normalize "a/b/../c".data = "a/c".data ∧
    normalize "./x/./y".data = "x/y".data ∧
    normalize "..".data = "".data := by
  refine ⟨?_, ?_, ?_⟩ <;> rfl

/- -----------------------------------------------------------------
   Text layout engine: wrapText (src/lib/ebook-utils.ts lines 97-122).
   The pdf-lib font metric widthOfTextAtSize is the parameter f; maxWidth
   is mw.  The source's inner character-fallback loop is wrapChunks, the
   outer word loop is wrapWords.
------------------------------------------------------------------ -/

def wrapChunks (f : Str → ℚ) (mw : ℚ) : Str → List Str → Str → List Str × Str
  | [], lines, chunk => (lines, chunk)
  | ch :: rest, lines, chunk =>
    if mw < f (chunk ++ [ch]) then
      wrapChunks f mw rest (if chunk = [] then lines else lines ++ [chunk]) [ch]
    else wrapChunks f mw rest lines (chunk ++ [ch])

def wrapWords (f : Str → ℚ) (mw : ℚ) : List Str → List Str → Str → List Str × Str
  | [], lines, line => (lines, line)
  | w :: ws, lines, line =>
    if f (if line = [] then w else line ++ ' ' :: w) ≤ mw then
      wrapWords f mw ws lines (if line = [] then w else line ++ ' ' :: w)
    else if mw < f w then
      wrapWords f mw ws
        (wrapChunks f mw w (if line = [] then lines else lines ++ [line]) []).1
        (wrapChunks f mw w (if line = [] then lines else lines ++ [line]) []).2
    else wrapWords f mw ws (if line = [] then lines else lines ++ [line]) w

/-- Greedy word wrap with character-level fallback for overlong tokens. -/
def wrapText (f : Str → ℚ) (mw : ℚ) (text : Str) : List Str :=
  let p := wrapWords f mw (wsTokens text) [] []
  if p.2 = [] then p.1 else p.1 ++ [p.2]

/-- A produced line is within the width budget or is a single character. -/
def lineOk (f : Str → ℚ) (mw : ℚ) (l : Str) : Prop := f l ≤ mw ∨ l.length = 1

def lineInv (f : Str → ℚ) (mw : ℚ) (l : Str) : Prop := l = [] ∨ lineOk f mw l

theorem wrapChunks_ok (f : Str → ℚ) (mw : ℚ) (w : Str) :
    ∀ lines chunk, (∀ l ∈ lines, lineOk f mw l) → lineInv f mw chunk →
      (∀ l ∈ (wrapChunks f mw w lines chunk).1, lineOk f mw l) ∧
        lineInv f mw (wrapChunks f mw w lines chunk).2 := by
  induction w with
  | nil =>
    intro lines chunk hl hc
    simpa [wrapChunks] using ⟨hl, hc⟩
  | cons ch rest ih =>
    intro lines chunk hl hc
    simp only [wrapChunks]
    by_cases hwid : mw < f (chunk ++ [ch])
    · simp only [hwid, if_true]
      apply ih
      · by_cases hch : chunk = []
        · simpa [hch] using hl
        · simp only [hch, if_false]
          intro l hlmem
          rcases List.mem_append.1 hlmem with h | h
          · exact hl l h
          · rcases hc with rfl | hok
            · exact absurd rfl hch
            · simpa [List.mem_singleton.1 h] using hok
      · right; right; rfl
    · simp only [hwid, if_false]
      apply ih _ _ hl
      right; left; exact le_of_not_lt hwid

theorem wrapWords_ok (f : Str → ℚ) (mw : ℚ) (ws : List Str) :
    ∀ lines line, (∀ l ∈ lines, lineOk f mw l) → lineInv f mw line →
      (∀ l ∈ (wrapWords f mw ws lines line).1, lineOk f mw l) ∧
        lineInv f mw (wrapWords f mw ws lines line).2 := by
  induction ws with
  | nil =>
    intro lines line hl hc
    simpa [wrapWords] using ⟨hl, hc⟩
  | cons w rest ih =>
    intro lines line hl hc
    have hflush : ∀ l ∈ (if line = [] then lines else lines ++ [line]), lineOk f mw l := by
      by_cases hln : line = []
      · simpa [hln] using hl
      · simp only [hln, if_false]
        intro l hlmem
        rcases List.mem_append.1 hlmem with h | h
        · exact hl l h
        · rcases hc with rfl | hok
          · exact absurd rfl hln
          · simpa [List.mem_singleton.1 h] using hok
    simp only [wrapWords]
    by_cases h1 : f (if line = [] then w else line ++ ' ' :: w) ≤ mw
    · simp only [h1, if_true]
      exact ih lines _ hl (Or.inr (Or.inl h1))
    · simp only [h1, if_false]
      by_cases h2 : mw < f w
      · simp only [h2, if_true]
        have hck := wrapChunks_ok f mw w (if line = [] then lines else lines ++ [line]) []
          hflush (Or.inl rfl)
        exact ih _ _ hck.1 hck.2
      · simp only [h2, if_false]
        exact ih _ _ hflush (Or.inr (Or.inl (le_of_not_lt h2)))

/-- Remove the space characters of a line (inverse of the injected single
separating spaces: tokens themselves never contain whitespace). -/
def stripSp (l : Str) : Str := l.filter (· != ' ')

theorem stripSp_nil : stripSp [] = [] := rfl

theorem stripSp_append (a b : Str) : stripSp (a ++ b) = stripSp a ++ stripSp b := by
  simp [stripSp, List.filter_append]

theorem stripSp_space_cons (w : Str) : stripSp (' ' :: w) = stripSp w := by
  simp [stripSp]

theorem flatten_map_flush (lines : List Str) (line : Str) :
    ((if line = [] then lines else lines ++ [line]).map stripSp).flatten =
      (lines.map stripSp).flatten ++ stripSp line := by
  by_cases hln : line = []
  · simp [hln, stripSp_nil]
  · simp [hln]

theorem wrapChunks_join (f : Str → ℚ) (mw : ℚ) (w : Str) :
    ∀ lines chunk,
      (((wrapChunks f mw w lines chunk).1).map stripSp).flatten ++
          stripSp (wrapChunks f mw w lines chunk).2 =
        (lines.map stripSp).flatten ++ stripSp chunk ++ stripSp w := by
  induction w with
  | nil =>
    intro lines chunk
    simp [wrapChunks, stripSp_nil]
  | cons ch rest ih =>
    intro lines chunk
    have hcons : stripSp (ch :: rest) = stripSp [ch] ++ stripSp rest := by
      simpa using stripSp_append [ch] rest
    simp only [wrapChunks]
    by_cases hwid : mw < f (chunk ++ [ch])
    · simp only [hwid, if_true]
      rw [ih, flatten_map_flush, hcons]
      simp [List.append_assoc]
    · simp only [hwid, if_false]
      rw [ih, stripSp_append, hcons]
      simp [List.append_assoc]

theorem wrapWords_join (f : Str → ℚ) (mw : ℚ) (ws : List Str) :
    ∀ lines line,
      (((wrapWords f mw ws lines line).1).map stripSp).flatten ++
          stripSp (wrapWords f mw ws lines line).2 =
        (lines.map stripSp).flatten ++ stripSp line ++ (ws.map stripSp).flatten := by
  induction ws with
  | nil => intro lines line; simp [wrapWords]
  | cons w rest ih =>
    intro lines line
    simp only [wrapWords]
    by_cases h1 : f (if line = [] then w else line ++ ' ' :: w) ≤ mw
    · simp only [h1, if_true]
      rw [ih]
      by_cases hln : line = []
      · simp [hln, stripSp_nil, List.append_assoc]
      · rw [if_neg hln, stripSp_append, stripSp_space_cons]
        simp [hln, List.append_assoc]
    · simp only [h1, if_false]
      by_cases h2 : mw < f w
      · simp only [h2, if_true]
        rw [ih, wrapChunks_join, flatten_map_flush]
        simp [stripSp_nil, List.append_assoc]
      · simp only [h2, if_false]
        rw [ih, flatten_map_flush]
        simp [List.append_assoc]

theorem splitWsAux_no_ws (s : Str) :
    ∀ acc, (∀ c ∈ acc, ¬ isWs c) →
      ∀ t ∈ splitWsAux s acc, ∀ c ∈ t, ¬ isWs c := by
  induction s with
  | nil =>
    intro acc hacc t ht
    simp only [splitWsAux] at ht
    split at ht
    · simp at ht
    · rcases List.mem_singleton.1 (by simpa using ht) with rfl
      intro c hc
      exact hacc c (by simpa using List.mem_reverse.1 hc)
  | cons a s ih =>
    intro acc hacc t ht
    simp only [splitWsAux] at ht
    by_cases hws : isWs a
    · simp only [hws, if_true] at ht
      split at ht
      · exact ih [] (by simp) t ht
      · rcases List.mem_cons.1 ht with rfl | hmem
        · intro c hc
          exact hacc c (by simpa using List.mem_reverse.1 hc)
        · exact ih [] (by simp) t hmem
    · simp only [hws, if_false] at ht
      refine ih (a :: acc) ?_ t ht
      intro c hc
      rcases List.mem_cons.1 hc with rfl | hmem
      · simpa using hws
      · exact hacc c hmem

theorem wsTokens_stripSp (text : Str) :
    (wsTokens text).map stripSp = wsTokens text := by
  have h := splitWsAux_no_ws text [] (by simp)
  have : ∀ t ∈ wsTokens text, stripSp t = t := by
    intro t ht
    apply List.filter_eq_self.2
    intro c hc
    have hcns := h t ht c hc
    simp only [isWs, Bool.or_eq_true, decide_eq_true_eq] at hcns
    have hne : c ≠ ' ' := fun hEq => hcns (by simp [hEq])
    simp [hne]
  calc (wsTokens text).map stripSp = (wsTokens text).map id :=
        List.map_congr_left this
    _ = wsTokens text := List.map_id _

/-- C2: for every input text, every character-append-monotone width function
and every width budget, wrapText produces lines that are within the budget or
are single characters, and the concatenation of all lines with the injected
separating spaces removed equals the concatenation of the whitespace-separated
tokens of the input; the model is a total function, so termination holds by
construction. -/
theorem C2_wrapText_spec (f : Str → ℚ) (mw : ℚ)
    (hmono : ∀ (s : Str) (c : Char), f s ≤ f (s ++ [c])) (text : Str) :
    (∀ l ∈ wrapText f mw text, f l ≤ mw ∨ l.length = 1) ∧
      ((wrapText f mw text).map stripSp).flatten = (wsTokens text).flatten := by
  clear hmono
  constructor
  · intro l hl
    have h := wrapWords_ok f mw (wsTokens text) [] [] (by simp) (Or.inl rfl)
    simp only [wrapText] at hl
    split at hl
    · exact h.1 l hl
    · rcases List.mem_append.1 hl with hmem | hmem
      · exact h.1 l hmem
      · rcases h.2 with hnil | hok
        · rename_i hne; exact absurd hnil hne
        · simpa [List.mem_singleton.1 hmem] using hok
  · have h := wrapWords_join f mw (wsTokens text) [] []
    rw [List.map_nil, List.flatten_nil, List.nil_append, stripSp_nil,
      List.nil_append, wsTokens_stripSp] at h
    simp only [wrapText]
    split
    · rename_i hnil
      rw [hnil, stripSp_nil, List.append_nil] at h
      exact h
    · rw [List.map_append, List.flatten_append]
      simpa using h

/-- Witness for C2 at a concrete width function, budget and text. -/
theorem C2_wrapText_spec_witness :
    (∀ l ∈ wrapText (fun _ => (0 : ℚ)) 1 "hello ebook world".data,
        (fun _ => (0 : ℚ)) l ≤ 1 ∨ l.length = 1) ∧
      ((wrapText (fun _ => (0 : ℚ)) 1 "hello ebook world".data).map stripSp).flatten =
        (wsTokens "hello ebook world".data).flatten :=
  C2_wrapText_spec (fun _ => (0 : ℚ)) 1 (fun _ _ => le_refl 0) "hello ebook world".data

/- -----------------------------------------------------------------
   BookModel (src/lib/ebook-utils.ts lines 175-182)
------------------------------------------------------------------ -/

structure Chapter where
  title : Option Str := none
  html : Str
deriving DecidableEq, Repr

structure ImageAsset where
  id : Str
  mime : Str
  data : List Nat
deriving DecidableEq, Repr

/-- The images record is modelled as an association list in property-insertion
order, matching JavaScript object semantics for the non-numeric keys used. -/
structure BookModel where
  title : Option Str
  author : Option Str
  chapters : List Chapter
  images : List (Str × ImageAsset)
deriving DecidableEq, Repr

/-- JavaScript object property assignment: overwrite in place, else append. -/
def insertAssoc {α : Type} : List (Str × α) → Str → α → List (Str × α)
  | [], k, v => [(k, v)]
  | (k0, v0) :: rest, k, v =>
    if k0 = k then (k0, v) :: rest else (k0, v0) :: insertAssoc rest k v

/-- JavaScript object property read. -/
def lookupAssoc {α : Type} : List (Str × α) → Str → Option α
  | [], _ => none
  | (k0, v0) :: rest, k => if k0 = k then some v0 else lookupAssoc rest k

/- -----------------------------------------------------------------
   Markup accessor: a document tree and a small executable stand-in for
   the browser DOMParser (an external collaborator per the spec), adequate
   for the well-formed fragments this pipeline produces.
------------------------------------------------------------------ -/

inductive Dom where
  | elem (tag : Str) (attrs : List (Str × Str)) (children : List Dom)
  | text (s : Str)
deriving Repr

def upperS (s : Str) : Str := s.map Char.toUpper

/-- Decode the XML entities produced by escapeXml. -/
def decodeEntities : Str → Str
  | [] => []
  | '&' :: 'a' :: 'm' :: 'p' :: ';' :: rest => '&' :: decodeEntities rest
  | '&' :: 'l' :: 't' :: ';' :: rest => '<' :: decodeEntities rest
  | '&' :: 'g' :: 't' :: ';' :: rest => '>' :: decodeEntities rest
  | '&' :: 'q' :: 'u' :: 'o' :: 't' :: ';' :: rest => '"' :: decodeEntities rest
  | c :: rest => c :: decodeEntities rest

def tagChar (c : Char) : Bool := c.isAlphanum

def attrNameChar (c : Char) : Bool := c.isAlphanum || c = '-' || c = ':' || c = '_'

def voidTags : List Str :=
  (["br", "img", "hr", "meta", "input", "link"].map String.data)

def isQuote (c : Char) : Bool := c = '"' || c = apos

/-- Attribute list parser of the DOMParser stand-in: returns the attributes,
the input after the closing angle bracket, and a self-closing flag. -/
def parseAttrs : ℕ → Str → List (Str × Str) → List (Str × Str) × Str × Bool
  | 0, s, acc => (acc.reverse, s, false)
  | Nat.succ fuel, s, acc =>
    let s1 := s.dropWhile isWs
    match s1 with
    | [] => (acc.reverse, [], false)
    | '>' :: rest => (acc.reverse, rest, false)
    | '/' :: '>' :: rest => (acc.reverse, rest, true)
    | c :: cs =>
      let name := (c :: cs).takeWhile attrNameChar
      if name = [] then parseAttrs fuel cs acc
      else
        let s2 := ((c :: cs).drop name.length).dropWhile isWs
        match s2 with
        | '=' :: s3 =>
          let s4 := s3.dropWhile isWs
          match s4 with
          | q :: s5 =>
            if isQuote q then
              let v := s5.takeWhile (fun d => d ≠ q)
              parseAttrs fuel ((s5.drop v.length).drop 1) ((name, decodeEntities v) :: acc)
            else
              let v := s4.takeWhile (fun d => !isWs d && d ≠ '>')
              parseAttrs fuel (s4.drop v.length) ((name, decodeEntities v) :: acc)
          | [] => (((name, []) :: acc).reverse, [], false)
        | _ => parseAttrs fuel s2 ((name, []) :: acc)

/-- Node list parser of the DOMParser stand-in.  Element tag names are stored
uppercased, matching the DOM tagName convention for HTML documents. -/
def parseNodes : ℕ → Str → List Dom × Str
  | 0, s => ([], s)
  | Nat.succ _, [] => ([], [])
  | Nat.succ fuel, c :: cs =>
    if c = '<' then
      match cs with
      | '/' :: _ => ([], c :: cs)
      | c2 :: _ =>
        if c2.isAlpha then
          let tag := cs.takeWhile tagChar
          let p := parseAttrs fuel (cs.drop tag.length) []
          if p.2.2 || voidTags.contains (lowerS tag) then
            let q := parseNodes fuel p.2.1
            (Dom.elem (upperS tag) p.1 [] :: q.1, q.2)
          else
            let q := parseNodes fuel p.2.1
            let afterClose := ((q.2).dropWhile (fun d => d ≠ '>')).drop 1
            let r := parseNodes fuel afterClose
            (Dom.elem (upperS tag) p.1 q.1 :: r.1, r.2)
        else
          let q := parseNodes fuel cs
          (Dom.text ['<'] :: q.1, q.2)
      | [] => ([Dom.text ['<']], [])
    else
      let t := (c :: cs).takeWhile (fun d => d ≠ '<')
      let q := parseNodes fuel ((c :: cs).drop t.length)
      (Dom.text (decodeEntities t) :: q.1, q.2)

/-- Model of the browser DOMParser on a body fragment: the parsed children of
the resulting document body. -/
def parseHtmlFragment (s : Str) : List Dom := (parseNodes (s.length + 1) s).1

/- -----------------------------------------------------------------
   Readable-text extractor (src/lib/ebook-utils.ts lines 124-170)
------------------------------------------------------------------ -/

def stripTags : List Str :=
  (["script", "style", "nav", "header", "footer"].map String.data)

mutual
def rmNonContent : Dom → Option Dom
  | Dom.text s => some (Dom.text s)
  | Dom.elem t a ch =>
    if stripTags.contains (lowerS t) then none
    else some (Dom.elem t a (rmNonContentL ch))
def rmNonContentL : List Dom → List Dom
  | [] => []
  | d :: ds =>
    match rmNonContent d with
    | none => rmNonContentL ds
    | some d2 => d2 :: rmNonContentL ds
end

mutual
def brToNewline : Dom → Dom
  | Dom.text s => Dom.text s
  | Dom.elem t a ch =>
    if lowerS t = "br".data then Dom.text ['\n']
    else Dom.elem t a (brToNewlineL ch)
def brToNewlineL : List Dom → List Dom
  | [] => []
  | d :: ds => brToNewline d :: brToNewlineL ds
end

def blockTags : List Str :=
  (["P", "DIV", "SECTION", "ARTICLE", "H1", "H2", "H3", "H4", "H5", "H6",
    "LI", "UL", "OL", "TABLE", "FIGURE", "BLOCKQUOTE"].map String.data)

mutual
/-- Tree walk in document order: a text node appends its collapsed trimmed
value plus one space, a block element appends one newline on entry. -/
def walkDom : Dom → Str
  | Dom.text s => jsTrim (collapseWs s) ++ [' ']
  | Dom.elem t _ ch =>
    (if blockTags.contains (upperS t) then ['\n'] else []) ++ walkDomL ch
def walkDomL : List Dom → Str
  | [] => []
  | d :: ds => walkDom d ++ walkDomL ds
end

/-- JavaScript s.replace(regex of space-tab runs before a newline, newline). -/
def stripSpBeforeNlAux : Str → Str → Str
  | [], pend => pend.reverse
  | c :: cs, pend =>
    if c = ' ' || c = '\t' then stripSpBeforeNlAux cs (c :: pend)
    else if c = '\n' then '\n' :: stripSpBeforeNlAux cs []
    else pend.reverse ++ c :: stripSpBeforeNlAux cs []

def stripSpBeforeNl (s : Str) : Str := stripSpBeforeNlAux s []

/-- JavaScript s.replace(regex of three or more newlines, two newlines). -/
def collapse3NlAux : Str → ℕ → Str
  | [], n => List.replicate (min n 2) '\n'
  | c :: cs, n =>
    if c = '\n' then collapse3NlAux cs (n + 1)
    else List.replicate (min n 2) '\n' ++ c :: collapse3NlAux cs 0

def collapse3Nl (s : Str) : Str := collapse3NlAux s 0

/-- extractReadableText: strip non-content elements, turn line breaks into
newlines, walk the tree, then normalize whitespace. -/
def extractReadableText (root : Option (List Dom)) : Str :=
  match root with
  | none => []
  | some doms =>
    jsTrim (collapse3Nl (stripSpBeforeNl (walkDomL (brToNewlineL (rmNonContentL doms)))))

/- -----------------------------------------------------------------
   TXT parser (lines 425-437) and plain-text exporter (lines 775-781)
------------------------------------------------------------------ -/

def splitParasAux : Str → Str → ℕ → List Str
  | [], acc, n =>
    if 2 ≤ n then [acc.reverse, []]
    else [acc.reverse ++ List.replicate n '\n']
  | c :: cs, acc, n =>
    if c = '\n' then splitParasAux cs acc (n + 1)
    else if 2 ≤ n then acc.reverse :: splitParasAux cs [c] 0
    else splitParasAux cs (c :: (List.replicate n '\n' ++ acc)) 0

/-- JavaScript text.split(regex of two or more newlines). -/
def splitParas (s : Str) : List Str := splitParasAux s [] 0

/-- parseTXTToModel on the UTF-8 decoded text: each blank-line-separated
paragraph is XML-escaped and wrapped in a p element; a single chapter. -/
def parseTXTToModel (text : Str) : BookModel :=
  { title := none
    author := none
    chapters := [{ title := none
                   html := joinSep ['\n']
                     ((splitParas text).map
                       (fun p => "<p>".data ++ escapeXml p ++ "</p>".data)) }]
    images := [] }

/-- modelToText: each chapter html is parsed by the markup accessor and run
through the readable-text extractor; chapters joined with blank lines. -/
def modelToText (parseHtml : Str → List Dom) (m : BookModel) : Str :=
  joinSep "\n\n".data
    (m.chapters.map (fun c => extractReadableText (some (parseHtml c.html))))

/-- Trailing-whitespace trim, for comparisons modulo trailing whitespace. -/
def jsTrimEnd (s : Str) : Str := (s.reverse.dropWhile isWs).reverse

/-- C1 counterexample: the TXT round trip on the two-paragraph input does not
return the input with its blank line; the two strings differ even after
trailing whitespace is removed from both. -/
theorem C1_txt_roundtrip_counterexample :
    modelToText parseHtmlFragment
        (parseTXTToModel "Hello world.\n\nSecond paragraph.".data) ≠
      "Hello world.\n\nSecond paragraph.".data ∧
    jsTrimEnd (modelToText parseHtmlFragment
        (parseTXTToModel "Hello world.\n\nSecond paragraph.".data)) ≠
      jsTrimEnd "Hello world.\n\nSecond paragraph.".data := by
  refine ⟨?_, ?_⟩ <;> decide

/-- C1 amended: the TXT parse-export round trip on the two-paragraph input
returns the text with the paragraph boundary collapsed to one newline, because
the readable-text extractor emits a single newline on entering each block
element. -/
theorem C1_txt_roundtrip_amended :
    modelToText parseHtmlFragment
        (parseTXTToModel "Hello world.\n\nSecond paragraph.".data) =
      "Hello world.\nSecond paragraph.".data := by
  decide

/- -----------------------------------------------------------------
   The img-tag regex of the exporters:
     <img[^>]+src=["']([^"']+)["'][^>]*>   (global, case-insensitive)
   and the EPUB exporter's lazy three-group variant
     <img([^>]+?)src=["']([^"']+)["']([^>]*)>
   modelled as an executable leftmost scanner.  pickLast selects the
   greedy (last src attribute) versus lazy (first src attribute)
   backtracking outcome for the part before src=.
------------------------------------------------------------------ -/

/-- Match the tail of the pattern starting at src=: returns the captured src
value, the part between the closing quote and the closing angle bracket, and
the rest of the input. -/
def srcRestMatch (u : Str) : Option (Str × Str × Str) :=
  if startsWithCI "src=".data u then
    match u.drop 4 with
    | q :: v =>
      if isQuote q then
        let w := v.takeWhile (fun c => !isQuote c)
        if w = [] then none
        else
          match v.drop w.length with
          | q2 :: v2 =>
            if isQuote q2 then
              let b := v2.takeWhile (fun c => c ≠ '>')
              match v2.drop b.length with
              | '>' :: rest => some (w, b, rest)
              | _ => none
            else none
          | [] => none
      else none
    | [] => none
  else none

/-- Try to match the img pattern at the head of the input: returns the part
between img and src=, the src capture, the part before the closing angle
bracket, and the rest. -/
def imgMatchHere (pickLast : Bool) (s : Str) : Option (Str × Str × Str × Str) :=
  if startsWithCI "<img".data s then
    let t := s.drop 4
    let limit := (t.takeWhile (fun c => c ≠ '>')).length
    let js := (List.range (limit + 1)).filter
      (fun j => decide (1 ≤ j) && (srcRestMatch (t.drop j)).isSome)
    match (if pickLast then js.getLast? else js.head?) with
    | none => none
    | some j =>
      match srcRestMatch (t.drop j) with
      | none => none
      | some (src, b, rest) => some (t.take j, src, b, rest)
  else none

/-- Leftmost non-overlapping scan: returns the split parts (complement
segments) and the matches as (matched text, group a, src, group b). -/
def imgScanAux (pickLast : Bool) : ℕ → Str → Str → List Str × List (Str × Str × Str × Str)
  | 0, s, acc => ([acc.reverse ++ s], [])
  | Nat.succ _, [], acc => ([acc.reverse], [])
  | Nat.succ fuel, c :: cs, acc =>
    match imgMatchHere pickLast (c :: cs) with
    | some (a, src, b, rest) =>
      let matched := (c :: cs).take ((c :: cs).length - rest.length)
      let q := imgScanAux pickLast fuel rest []
      (acc.reverse :: q.1, (matched, a, src, b) :: q.2)
    | none => imgScanAux pickLast fuel cs (c :: acc)

def imgScan (pickLast : Bool) (s : Str) : List Str × List (Str × Str × Str × Str) :=
  imgScanAux pickLast (s.length + 1) s []

/-- stripAllHtml tag-removal pass: the regex of an angle-bracketed run with an
optional leading slash, applied globally. -/
def rmTagsAux : ℕ → Str → Str
  | 0, s => s
  | Nat.succ _, [] => []
  | Nat.succ fuel, c :: cs =>
    if c = '<' then
      let u := match cs with | '/' :: r => r | _ => cs
      let body := u.takeWhile (fun d => d ≠ '>')
      if 1 ≤ body.length then
        match u.drop body.length with
        | '>' :: rest => rmTagsAux fuel rest
        | _ => c :: rmTagsAux fuel cs
      else c :: rmTagsAux fuel cs
    else c :: rmTagsAux fuel cs

/-- stripAllHtml: drop tags, collapse whitespace runs, trim. -/
def stripAllHtml (s : Str) : Str := jsTrim (collapseWs (rmTagsAux (s.length + 1) s))

/- -----------------------------------------------------------------
   PDF exporter modelToPDF (src/lib/ebook-utils.ts lines 607-691).
   The pdf-lib drawing surface is modelled as the list of draw operations
   per page; the font metric and the PNG/JPEG embedders are parameters
   (embedders return the image dimensions, none on an embedding failure).
   JavaScript float arithmetic is modelled exactly over the rationals.
------------------------------------------------------------------ -/

inductive PdfOp where
  | line (s : Str) (y : ℚ)
  | pic (y w h : ℚ)
deriving DecidableEq, Repr

structure PdfState where
  pages : List (List PdfOp)
  cur : List PdfOp
  y : ℚ
deriving Repr

def pdfMargin : ℚ := 36
def pdfPageH : ℚ := 792
/-- maxWidth: pageWidth 612 minus twice the 36pt margin. -/
def pdfMaxW : ℚ := 540
/-- lineHeight: fontSize 12 times 1.4 (the float 1.4 modelled exactly). -/
def pdfLineH : ℚ := mkRat 84 5

theorem pdfLineH_val : pdfLineH = 84 / 5 := by
  rw [pdfLineH, Rat.mkRat_eq_div]
  norm_num

def newPage (st : PdfState) : PdfState :=
  { pages := st.pages ++ [st.cur], cur := [], y := pdfPageH - pdfMargin }

def drawLine (ln : Str) (st : PdfState) : PdfState :=
  let st1 := if st.y - pdfLineH < pdfMargin then newPage st else st
  { pages := st1.pages
    cur := st1.cur ++ [PdfOp.line ln (st1.y - pdfLineH)]
    y := st1.y - pdfLineH }

def pushLine (f : Str → ℚ) (s : Str) (st : PdfState) : PdfState :=
  (wrapText f pdfMaxW s).foldl (fun acc ln => drawLine ln acc) st

def drawImage (dims : Option (ℚ × ℚ)) (st : PdfState) : PdfState :=
  match dims with
  | none => st
  | some (iw, ih) =>
    let scale := min (pdfMaxW / iw) 1
    let w := iw * scale
    let h := ih * scale
    let st1 := if st.y - h < pdfMargin then newPage st else st
    { pages := st1.pages
      cur := st1.cur ++ [PdfOp.pic (st1.y - h) w h]
      y := st1.y - (h + pdfLineH * (1 / 2)) }

def interleaveSegs : List Str → List Str → List (Str ⊕ Str)
  | [], _ => []
  | p :: ps, [] => Sum.inl p :: interleaveSegs ps []
  | p :: ps, s :: ss => Sum.inl p :: Sum.inr s :: interleaveSegs ps ss

/-- The alternating text and image-src segments of a chapter html, from the
matchAll and split applications of the img-tag regex. -/
def pdfSegs (html : Str) : List (Str ⊕ Str) :=
  let p := imgScan true html
  interleaveSegs p.1 (p.2.map (fun mt => mt.2.2.1))

def procSeg (f : Str → ℚ) (png jpg : List ℕ → Option (ℚ × ℚ))
    (imgBytes : List (Str × List ℕ)) (st : PdfState) : Str ⊕ Str → PdfState
  | Sum.inl part =>
    let t := jsTrim (stripAllHtml part)
    if t = [] then st else pushLine f t st
  | Sum.inr src =>
    let file := jsTrim (basenameOf src)
    match lookupAssoc imgBytes file with
    | none => st
    | some bytes =>
      match png bytes with
      | some d => drawImage (some d) st
      | none => drawImage (jpg bytes) st

def procChapter (f : Str → ℚ) (png jpg : List ℕ → Option (ℚ × ℚ))
    (imgBytes : List (Str × List ℕ)) (st : PdfState) (ch : Chapter) : PdfState :=
  let st1 := (pdfSegs ch.html).foldl (procSeg f png jpg imgBytes) st
  if st1.y - pdfLineH < pdfMargin + pdfLineH then
    { pages := st1.pages ++ [st1.cur], cur := [], y := pdfPageH - pdfMargin }
  else { st1 with y := st1.y - pdfLineH }

/-- The quick filename-to-bytes lookup built from the images record. -/
def imgBytesOf (m : BookModel) : List (Str × List ℕ) :=
  m.images.foldl (fun acc p => insertAssoc acc p.2.id p.2.data) []

/-- modelToPDF: the pages of draw operations produced for a model. -/
def modelToPDF (f : Str → ℚ) (png jpg : List ℕ → Option (ℚ × ℚ))
    (m : BookModel) : List (List PdfOp) :=
  let st := m.chapters.foldl (procChapter f png jpg (imgBytesOf m))
    { pages := [], cur := [], y := pdfPageH - pdfMargin }
  st.pages ++ [st.cur]

/- -----------------------------------------------------------------
   Pagination invariants of modelToPDF
------------------------------------------------------------------ -/

theorem foldl_preserve {α β : Type _} (P : α → Prop) (g : α → β → α)
    (h : ∀ a b, P a → P (g a b)) : ∀ (l : List β) (a : α), P a → P (l.foldl g a) := by
  intro l
  induction l with
  | nil => intro a ha; simpa using ha
  | cons b bs ih => intro a ha; simpa using ih _ (h a b ha)

theorem foldl_mono {α β : Type _} (μ : α → ℕ) (g : α → β → α)
    (h : ∀ a b, μ a ≤ μ (g a b)) : ∀ (l : List β) (a : α), μ a ≤ μ (l.foldl g a) := by
  intro l
  induction l with
  | nil => intro a; simp
  | cons b bs ih => intro a; exact le_trans (h a b) (ih _)

def opsLinesOk (ops : List PdfOp) : Prop :=
  ∀ op ∈ ops, ∀ s y, op = PdfOp.line s y → pdfMargin ≤ y

def stLinesOk (st : PdfState) : Prop :=
  (∀ pg ∈ st.pages, opsLinesOk pg) ∧ opsLinesOk st.cur

theorem opsLinesOk_append {a b : List PdfOp} (ha : opsLinesOk a) (hb : opsLinesOk b) :
    opsLinesOk (a ++ b) := by
  intro op hop s y he
  rcases List.mem_append.1 hop with h | h
  · exact ha op h s y he
  · exact hb op h s y he

theorem newPage_linesOk {st : PdfState} (h : stLinesOk st) : stLinesOk (newPage st) := by
  refine ⟨?_, ?_⟩
  · intro pg hpg
    rcases List.mem_append.1 hpg with hm | hm
    · exact h.1 pg hm
    · rw [List.mem_singleton.1 hm]; exact h.2
  · intro op hop; simp [newPage] at hop

theorem newPage_y (st : PdfState) : (newPage st).y = pdfPageH - pdfMargin := rfl

theorem drawLine_linesOk {st : PdfState} (h : stLinesOk st) (ln : Str) :
    stLinesOk (drawLine ln st) := by
  by_cases hc : st.y - pdfLineH < pdfMargin
  · have h1 := newPage_linesOk h
    refine ⟨?_, ?_⟩
    · simpa [drawLine, hc] using h1.1
    · simp only [drawLine, hc, if_true]
      apply opsLinesOk_append h1.2
      intro op hop s y he
      rw [List.mem_singleton.1 hop] at he
      rw [← (PdfOp.line.inj he).2, newPage_y]
      norm_num [pdfPageH, pdfMargin, pdfLineH_val]
  · refine ⟨?_, ?_⟩
    · simpa [drawLine, hc] using h.1
    · simp only [drawLine, hc, if_false]
      apply opsLinesOk_append h.2
      intro op hop s y he
      rw [List.mem_singleton.1 hop] at he
      rw [← (PdfOp.line.inj he).2]
      linarith [le_of_not_lt hc]

theorem drawImage_linesOk {st : PdfState} (h : stLinesOk st) (dims : Option (ℚ × ℚ)) :
    stLinesOk (drawImage dims st) := by
  match dims with
  | none => simpa [drawImage] using h
  | some (iw, ih) =>
    by_cases hc : st.y - ih * min (pdfMaxW / iw) 1 < pdfMargin
    · have h1 := newPage_linesOk h
      refine ⟨?_, ?_⟩
      · simpa [drawImage, hc] using h1.1
      · simp only [drawImage, hc, if_true]
        apply opsLinesOk_append h1.2
        intro op hop s y he
        rw [List.mem_singleton.1 hop] at he
        exact absurd he (by simp)
    · refine ⟨?_, ?_⟩
      · simpa [drawImage, hc] using h.1
      · simp only [drawImage, hc, if_false]
        apply opsLinesOk_append h.2
        intro op hop s y he
        rw [List.mem_singleton.1 hop] at he
        exact absurd he (by simp)

theorem pushLine_linesOk {st : PdfState} (h : stLinesOk st) (f : Str → ℚ) (s : Str) :
    stLinesOk (pushLine f s st) :=
  foldl_preserve stLinesOk _ (fun a b ha => drawLine_linesOk ha b) _ st h

theorem procSeg_linesOk (f : Str → ℚ) (png jpg : List ℕ → Option (ℚ × ℚ))
    (ib : List (Str × List ℕ)) {st : PdfState} (h : stLinesOk st) (seg : Str ⊕ Str) :
    stLinesOk (procSeg f png jpg ib st seg) := by
  match seg with
  | Sum.inl part =>
    simp only [procSeg]
    split
    · exact h
    · exact pushLine_linesOk h f _
  | Sum.inr src =>
    simp only [procSeg]
    split
    · exact h
    · split
      · exact drawImage_linesOk h _
      · exact drawImage_linesOk h _

theorem procChapter_linesOk (f : Str → ℚ) (png jpg : List ℕ → Option (ℚ × ℚ))
    (ib : List (Str × List ℕ)) {st : PdfState} (h : stLinesOk st) (ch : Chapter) :
    stLinesOk (procChapter f png jpg ib st ch) := by
  have h1 : stLinesOk ((pdfSegs ch.html).foldl (procSeg f png jpg ib) st) :=
    foldl_preserve stLinesOk _ (fun a b ha => procSeg_linesOk f png jpg ib ha b) _ st h
  simp only [procChapter]
  split
  · refine ⟨?_, ?_⟩
    · intro pg hpg
      rcases List.mem_append.1 hpg with hm | hm
      · exact h1.1 pg hm
      · rw [List.mem_singleton.1 hm]; exact h1.2
    · intro op hop; simp at hop
  · exact ⟨h1.1, h1.2⟩

/- ----- page-count monotonicity ----- -/

theorem drawLine_len_ge (ln : Str) (st : PdfState) :
    st.pages.length ≤ (drawLine ln st).pages.length := by
  by_cases hc : st.y - pdfLineH < pdfMargin
  · simp [drawLine, hc, newPage]
  · simp [drawLine, hc]

theorem drawImage_len_ge (dims : Option (ℚ × ℚ)) (st : PdfState) :
    st.pages.length ≤ (drawImage dims st).pages.length := by
  match dims with
  | none => simp [drawImage]
  | some (iw, ih) =>
    by_cases hc : st.y - ih * min (pdfMaxW / iw) 1 < pdfMargin
    · simp [drawImage, hc, newPage]
    · simp [drawImage, hc]

theorem pushLine_len_ge (f : Str → ℚ) (s : Str) (st : PdfState) :
    st.pages.length ≤ (pushLine f s st).pages.length :=
  foldl_mono (fun a => a.pages.length) _ (fun a b => drawLine_len_ge b a) _ st

theorem procSeg_len_ge (f : Str → ℚ) (png jpg : List ℕ → Option (ℚ × ℚ))
    (ib : List (Str × List ℕ)) (st : PdfState) (seg : Str ⊕ Str) :
    st.pages.length ≤ (procSeg f png jpg ib st seg).pages.length := by
  match seg with
  | Sum.inl part =>
    simp only [procSeg]
    split
    · exact le_refl _
    · exact pushLine_len_ge f _ st
  | Sum.inr src =>
    simp only [procSeg]
    split
    · exact le_refl _
    · split
      · exact drawImage_len_ge _ st
      · exact drawImage_len_ge _ st

theorem procChapter_len_ge (f : Str → ℚ) (png jpg : List ℕ → Option (ℚ × ℚ))
    (ib : List (Str × List ℕ)) (st : PdfState) (ch : Chapter) :
    st.pages.length ≤ (procChapter f png jpg ib st ch).pages.length := by
  have h1 := foldl_mono (fun a : PdfState => a.pages.length) _
    (fun a b => procSeg_len_ge f png jpg ib a b) (pdfSegs ch.html) st
  simp only [procChapter]
  split
  · simp only [List.length_append, List.length_singleton]
    omega
  · exact h1

/- ----- the y coordinate never exceeds the fresh-page top ----- -/

def dimsOk (e : List ℕ → Option (ℚ × ℚ)) : Prop :=
  ∀ b w h, e b = some (w, h) → 0 ≤ w ∧ 0 ≤ h

def yBound (st : PdfState) : Prop := st.y ≤ pdfPageH - pdfMargin

theorem pdfLineH_pos : (0 : ℚ) < pdfLineH := by norm_num [pdfLineH_val]

theorem drawLine_yBound {st : PdfState} (h : yBound st) (ln : Str) :
    yBound (drawLine ln st) := by
  by_cases hc : st.y - pdfLineH < pdfMargin
  · simp only [yBound, drawLine, hc, if_true, newPage]
    have := pdfLineH_pos
    norm_num [pdfPageH, pdfMargin, pdfLineH_val]
  · simp only [yBound, drawLine, hc, if_false]
    have := pdfLineH_pos
    simp only [yBound] at h
    linarith

theorem imgH_nonneg {iw ih : ℚ} (hw : 0 ≤ iw) (hh : 0 ≤ ih) :
    0 ≤ ih * min (pdfMaxW / iw) 1 := by
  apply mul_nonneg hh
  apply le_min
  · apply div_nonneg _ hw
    norm_num [pdfMaxW]
  · norm_num

theorem drawImage_yBound {st : PdfState} (h : yBound st) {dims : Option (ℚ × ℚ)}
    (hd : ∀ w hh, dims = some (w, hh) → 0 ≤ w ∧ 0 ≤ hh) :
    yBound (drawImage dims st) := by
  match dims with
  | none => simpa [drawImage] using h
  | some (iw, ih) =>
    have hwh := hd iw ih rfl
    have hhn : 0 ≤ ih * min (pdfMaxW / iw) 1 := imgH_nonneg hwh.1 hwh.2
    have hlh := pdfLineH_pos
    by_cases hc : st.y - ih * min (pdfMaxW / iw) 1 < pdfMargin
    · simp only [yBound, drawImage, hc, if_true, newPage]
      linarith
    · simp only [yBound, drawImage, hc, if_false]
      simp only [yBound] at h
      linarith

theorem pushLine_yBound {st : PdfState} (h : yBound st) (f : Str → ℚ) (s : Str) :
    yBound (pushLine f s st) :=
  foldl_preserve yBound _ (fun a b ha => drawLine_yBound ha b) _ st h

theorem procSeg_yBound (f : Str → ℚ) {png jpg : List ℕ → Option (ℚ × ℚ)}
    (hpng : dimsOk png) (hjpg : dimsOk jpg) (ib : List (Str × List ℕ))
    {st : PdfState} (h : yBound st) (seg : Str ⊕ Str) :
    yBound (procSeg f png jpg ib st seg) := by
  match seg with
  | Sum.inl part =>
    simp only [procSeg]
    split
    · exact h
    · exact pushLine_yBound h f _
  | Sum.inr src =>
    simp only [procSeg]
    rcases hq : lookupAssoc ib (jsTrim (basenameOf src)) with _ | bytes
    · simp only [hq]; exact h
    · simp only [hq]
      rcases hp : png bytes with _ | d
      · simp only [hp]
        exact drawImage_yBound h (fun w hh he => hjpg bytes w hh he)
      · simp only [hp]
        exact drawImage_yBound h (fun w hh he => hpng bytes w hh (by
          injection he with h2; rw [← h2]; exact hp))

theorem procChapter_yBound (f : Str → ℚ) {png jpg : List ℕ → Option (ℚ × ℚ)}
    (hpng : dimsOk png) (hjpg : dimsOk jpg) (ib : List (Str × List ℕ))
    {st : PdfState} (h : yBound st) (ch : Chapter) :
    yBound (procChapter f png jpg ib st ch) := by
  have h1 : yBound ((pdfSegs ch.html).foldl (procSeg f png jpg ib) st) :=
    foldl_preserve yBound _ (fun a b ha => procSeg_yBound f hpng hjpg ib ha b) _ st h
  have hlh := pdfLineH_pos
  simp only [procChapter]
  split
  · simp only [yBound]; norm_num
  · simp only [yBound] at h1 ⊢
    linarith

/- ----- when the page count does not grow, vertical budget was spent ----- -/

theorem drawLine_noadd {ln : Str} {st : PdfState}
    (h : (drawLine ln st).pages.length = st.pages.length) :
    (drawLine ln st).y = st.y - pdfLineH ∧ pdfMargin + pdfLineH ≤ st.y := by
  by_cases hc : st.y - pdfLineH < pdfMargin
  · exfalso
    simp [drawLine, hc, newPage] at h
  · constructor
    · simp [drawLine, hc]
    · linarith [le_of_not_lt hc]

theorem foldlDraw_noadd (L : List Str) :
    ∀ st : PdfState,
      (L.foldl (fun a ln => drawLine ln a) st).pages.length = st.pages.length →
      (L.foldl (fun a ln => drawLine ln a) st).y = st.y - pdfLineH * L.length ∧
        (1 ≤ L.length → pdfMargin + pdfLineH * L.length ≤ st.y) := by
  induction L with
  | nil =>
    intro st h
    constructor
    · simp
    · intro h1; simp at h1
  | cons l L ih =>
    intro st h
    simp only [List.foldl_cons] at h ⊢
    have hmono1 : st.pages.length ≤ (drawLine l st).pages.length := drawLine_len_ge l st
    have hmono2 : (drawLine l st).pages.length ≤
        (L.foldl (fun a ln => drawLine ln a) (drawLine l st)).pages.length :=
      foldl_mono (fun a : PdfState => a.pages.length) _ (fun a b => drawLine_len_ge b a) L _
    have heq1 : (drawLine l st).pages.length = st.pages.length := by omega
    have hd := drawLine_noadd heq1
    have hih := ih (drawLine l st) (by omega)
    constructor
    · rw [hih.1, hd.1]
      simp only [List.length_cons]
      push_cast
      ring
    · intro _
      simp only [List.length_cons]
      rcases Nat.eq_zero_or_pos L.length with hL | hL
      · rw [hL]
        push_cast
        linarith [hd.2]
      · have h2 := hih.2 hL
        rw [hd.1] at h2
        push_cast at h2 ⊢
        linarith

/-- The wrapped text lines a segment contributes to the PDF. -/
def segTexts (f : Str → ℚ) : Str ⊕ Str → List Str
  | Sum.inl part =>
    let t := jsTrim (stripAllHtml part)
    if t = [] then [] else wrapText f pdfMaxW t
  | Sum.inr _ => []

theorem drawImage_y_noadd {dims : Option (ℚ × ℚ)} {st : PdfState}
    (h : (drawImage dims st).pages.length = st.pages.length)
    (hd : ∀ w hh, dims = some (w, hh) → 0 ≤ w ∧ 0 ≤ hh) :
    (drawImage dims st).y ≤ st.y := by
  match dims with
  | none => simp [drawImage]
  | some (iw, ih) =>
    have hwh := hd iw ih rfl
    have hhn := imgH_nonneg hwh.1 hwh.2
    have hlh := pdfLineH_pos
    by_cases hc : st.y - ih * min (pdfMaxW / iw) 1 < pdfMargin
    · exfalso
      simp [drawImage, hc, newPage] at h
    · simp only [drawImage, hc, if_false]
      linarith

theorem procSeg_noadd (f : Str → ℚ) {png jpg : List ℕ → Option (ℚ × ℚ)}
    (hpng : dimsOk png) (hjpg : dimsOk jpg) (ib : List (Str × List ℕ))
    {st : PdfState} {seg : Str ⊕ Str}
    (h : (procSeg f png jpg ib st seg).pages.length = st.pages.length) :
    (procSeg f png jpg ib st seg).y ≤ st.y - pdfLineH * (segTexts f seg).length ∧
      (1 ≤ (segTexts f seg).length →
        pdfMargin + pdfLineH * (segTexts f seg).length ≤ st.y) := by
  match seg with
  | Sum.inl part =>
    by_cases ht : jsTrim (stripAllHtml part) = []
    · simp only [procSeg, segTexts, ht, if_true] at h ⊢
      constructor
      · simp
      · intro h1; simp at h1
    · simp only [procSeg, segTexts, ht, if_false] at h ⊢
      simp only [pushLine] at h ⊢
      have hf := foldlDraw_noadd (wrapText f pdfMaxW (jsTrim (stripAllHtml part))) st h
      exact ⟨le_of_eq hf.1, hf.2⟩
  | Sum.inr src =>
    refine ⟨?_, by intro h1; simp [segTexts] at h1⟩
    simp only [segTexts, List.length_nil, Nat.cast_zero, mul_zero, sub_zero]
    simp only [procSeg] at h ⊢
    rcases hq : lookupAssoc ib (jsTrim (basenameOf src)) with _ | bytes
    · simp only [hq] at h ⊢
      exact le_refl _
    · simp only [hq] at h ⊢
      rcases hp : png bytes with _ | d
      · simp only [hp] at h ⊢
        exact drawImage_y_noadd h (fun w hh he => hjpg bytes w hh he)
      · simp only [hp] at h ⊢
        exact drawImage_y_noadd h (fun w hh he => hpng bytes w hh (by
          injection he with h2; rw [← h2]; exact hp))


theorem segsFold_noadd (f : Str → ℚ) {png jpg : List ℕ → Option (ℚ × ℚ)}
    (hpng : dimsOk png) (hjpg : dimsOk jpg) (ib : List (Str × List ℕ))
    (segs : List (Str ⊕ Str)) :
    ∀ st : PdfState,
      (segs.foldl (procSeg f png jpg ib) st).pages.length = st.pages.length →
      (segs.foldl (procSeg f png jpg ib) st).y ≤
          st.y - pdfLineH * ((segs.map (fun sg => (segTexts f sg).length)).sum) ∧
        (1 ≤ (segs.map (fun sg => (segTexts f sg).length)).sum →
          pdfMargin + pdfLineH * ((segs.map (fun sg => (segTexts f sg).length)).sum) ≤ st.y) := by
  induction segs with
  | nil =>
    intro st h
    constructor
    · simp
    · intro h1; simp at h1
  | cons seg rest ih =>
    intro st h
    simp only [List.foldl_cons] at h ⊢
    have hmono1 : st.pages.length ≤ (procSeg f png jpg ib st seg).pages.length :=
      procSeg_len_ge f png jpg ib st seg
    have hmono2 : (procSeg f png jpg ib st seg).pages.length ≤
        (rest.foldl (procSeg f png jpg ib) (procSeg f png jpg ib st seg)).pages.length :=
      foldl_mono (fun a : PdfState => a.pages.length) _
        (fun a b => procSeg_len_ge f png jpg ib a b) rest _
    have heq1 : (procSeg f png jpg ib st seg).pages.length = st.pages.length := by omega
    have hs := procSeg_noadd f hpng hjpg ib heq1
    have hih := ih (procSeg f png jpg ib st seg) (by omega)
    simp only [List.map_cons, List.sum_cons]
    constructor
    · have h1 := hih.1
      push_cast at h1 hs ⊢
      linarith [hs.1]
    · intro hsum
      rcases Nat.eq_zero_or_pos ((rest.map (fun sg => (segTexts f sg).length)).sum)
        with hr | hr
      · rw [hr] at hsum ⊢
        have hn0 : 1 ≤ (segTexts f seg).length := by omega
        have := hs.2 hn0
        push_cast at this ⊢
        linarith
      · have h2 := hih.2 hr
        push_cast at h2 hs ⊢
        linarith [hs.1]

/-- The total number of wrapped text lines a chapter pushes to the PDF. -/
def chapterLineCount (f : Str → ℚ) (ch : Chapter) : ℕ :=
  ((pdfSegs ch.html).map (fun sg => (segTexts f sg).length)).sum

theorem procChapter_noadd (f : Str → ℚ) {png jpg : List ℕ → Option (ℚ × ℚ)}
    (hpng : dimsOk png) (hjpg : dimsOk jpg) (ib : List (Str × List ℕ))
    {st : PdfState} {ch : Chapter}
    (h : (procChapter f png jpg ib st ch).pages.length = st.pages.length)
    (hcnt : 1 ≤ chapterLineCount f ch) :
    pdfMargin + pdfLineH * (chapterLineCount f ch : ℚ) ≤ st.y := by
  have hmono1 : st.pages.length ≤
      ((pdfSegs ch.html).foldl (procSeg f png jpg ib) st).pages.length :=
    foldl_mono (fun a : PdfState => a.pages.length) _
      (fun a b => procSeg_len_ge f png jpg ib a b) _ st
  simp only [procChapter] at h
  split at h
  · exfalso
    simp only [List.length_append, List.length_singleton] at h
    omega
  · exact (segsFold_noadd f hpng hjpg ib (pdfSegs ch.html) st h).2 hcnt

/-- C6: in modelToPDF, every drawn text line's baseline stays at or above the
bottom margin (a fresh page is allocated whenever the remaining vertical space
is insufficient), and, provided the image embedders report nonnegative
dimensions, a chapter whose wrapped text needs more vertical space than one
page holds produces an output of at least two pages. -/
theorem C6_modelToPDF_pagination (f : Str → ℚ) (png jpg : List ℕ → Option (ℚ × ℚ))
    (m : BookModel) :
    (∀ pg ∈ modelToPDF f png jpg m, opsLinesOk pg) ∧
      (dimsOk png → dimsOk jpg →
        ∀ ch ∈ m.chapters,
          pdfPageH - 2 * pdfMargin < pdfLineH * (chapterLineCount f ch : ℚ) →
          2 ≤ (modelToPDF f png jpg m).length) := by
  constructor
  · intro pg hpg
    have h0 : stLinesOk { pages := [], cur := [], y := pdfPageH - pdfMargin } := by
      constructor
      · intro pg2 hpg2; simp at hpg2
      · intro op hop; simp at hop
    have hF := foldl_preserve stLinesOk _
      (fun a b ha => procChapter_linesOk f png jpg (imgBytesOf m) ha b) m.chapters _ h0
    simp only [modelToPDF] at hpg
    rcases List.mem_append.1 hpg with hmem | hmem
    · exact hF.1 pg hmem
    · rw [List.mem_singleton.1 hmem]; exact hF.2
  · intro hpng hjpg ch hch hbig
    obtain ⟨pre, post, hsplit⟩ := List.append_of_mem hch
    have hcnt : 1 ≤ chapterLineCount f ch := by
      by_contra hc
      have h0 : chapterLineCount f ch = 0 := by omega
      rw [h0] at hbig
      norm_num [pdfPageH, pdfMargin, pdfLineH_val] at hbig
    simp only [modelToPDF, List.length_append, List.length_singleton]
    have hgoal : 1 ≤ (m.chapters.foldl (procChapter f png jpg (imgBytesOf m))
        { pages := [], cur := [], y := pdfPageH - pdfMargin }).pages.length := by
      rw [hsplit, List.foldl_append, List.foldl_cons]
      set st0 : PdfState := { pages := [], cur := [], y := pdfPageH - pdfMargin } with hst0
      set stPre := pre.foldl (procChapter f png jpg (imgBytesOf m)) st0 with hstPre
      set stCh := procChapter f png jpg (imgBytesOf m) stPre ch with hstCh
      have hmonoPost : stCh.pages.length ≤
          (post.foldl (procChapter f png jpg (imgBytesOf m)) stCh).pages.length :=
        foldl_mono (fun a : PdfState => a.pages.length)
          (procChapter f png jpg (imgBytesOf m))
          (fun a b => procChapter_len_ge f png jpg (imgBytesOf m) a b) post stCh
      by_cases hn : 1 ≤ stCh.pages.length
      · omega
      · exfalso
        have hch0 : stCh.pages.length = 0 := by omega
        have hpre0 : stPre.pages.length = 0 := by
          have hle := procChapter_len_ge f png jpg (imgBytesOf m) stPre ch
          rw [← hstCh] at hle
          omega
        have hyPre : yBound stPre := by
          rw [hstPre]
          apply foldl_preserve yBound (procChapter f png jpg (imgBytesOf m))
            (fun a b ha => procChapter_yBound f hpng hjpg (imgBytesOf m) ha b) pre st0
          simp [yBound, hst0]
        have hna := @procChapter_noadd f png jpg hpng hjpg (imgBytesOf m)
          stPre ch (by rw [← hstCh]; omega) hcnt
        simp only [yBound] at hyPre
        linarith
    omega

/-- Witness for C6 at a concrete width function, embedders and model: one
chapter of a 43-character token, each character wider than the page. -/
theorem C6_modelToPDF_pagination_witness :
    2 ≤ (modelToPDF (fun _ => (541 : ℚ)) (fun _ => none) (fun _ => none)
        { title := none, author := none
          chapters := [{ title := none, html := List.replicate 43 'a' }]
          images := [] }).length := by
  apply (C6_modelToPDF_pagination (fun _ => (541 : ℚ))
      (fun _ => none) (fun _ => none) _).2
  · intro b w h he
    exact Option.noConfusion he
  · intro b w h he
    exact Option.noConfusion he
  · exact List.mem_singleton.2 rfl
  · have hc : chapterLineCount (fun _ => (541 : ℚ))
        { title := none, html := List.replicate 43 'a' } = 43 := by decide
    rw [hc]
    norm_num [pdfPageH, pdfMargin, pdfLineH_val]

/- -----------------------------------------------------------------
   Per-asset failure resilience of modelToPDF: the drawn text does not
   depend on image resolution or embedding outcomes.
------------------------------------------------------------------ -/

def opsTexts (ops : List PdfOp) : List Str :=
  ops.filterMap (fun op => match op with
    | PdfOp.line s _ => some s
    | PdfOp.pic _ _ _ => none)

def pagesTexts (pages : List (List PdfOp)) : List Str := (pages.map opsTexts).flatten

def stTexts (st : PdfState) : List Str := pagesTexts st.pages ++ opsTexts st.cur

/-- The wrapped text lines modelToPDF draws, computed from the chapters alone
with no image data at all. -/
def pdfTextLines (f : Str → ℚ) (m : BookModel) : List Str :=
  (m.chapters.map (fun ch => ((pdfSegs ch.html).map (segTexts f)).flatten)).flatten

theorem opsTexts_append (a b : List PdfOp) :
    opsTexts (a ++ b) = opsTexts a ++ opsTexts b := by
  simp [opsTexts, List.filterMap_append]

theorem opsTexts_nil : opsTexts [] = [] := rfl

theorem opsTexts_line (s : Str) (y : ℚ) : opsTexts [PdfOp.line s y] = [s] := rfl

theorem opsTexts_pic (y w h : ℚ) : opsTexts [PdfOp.pic y w h] = [] := rfl

theorem stTexts_newPage (st : PdfState) : stTexts (newPage st) = stTexts st := by
  simp [stTexts, newPage, pagesTexts, opsTexts_nil]

theorem stTexts_pushOp (st : PdfState) (op : PdfOp) (y : ℚ) :
    stTexts { pages := st.pages, cur := st.cur ++ [op], y := y } =
      stTexts st ++ opsTexts [op] := by
  simp [stTexts, opsTexts_append, List.append_assoc]

theorem stTexts_setY (st : PdfState) (y : ℚ) :
    stTexts { pages := st.pages, cur := st.cur, y := y } = stTexts st := rfl

theorem stTexts_flush (st : PdfState) (y : ℚ) :
    stTexts { pages := st.pages ++ [st.cur], cur := [], y := y } = stTexts st := by
  simp [stTexts, pagesTexts, opsTexts_nil]

theorem stTexts_drawLine (ln : Str) (st : PdfState) :
    stTexts (drawLine ln st) = stTexts st ++ [ln] := by
  by_cases hc : st.y - pdfLineH < pdfMargin
  · simp only [drawLine, hc, if_true]
    rw [stTexts_pushOp, stTexts_newPage, opsTexts_line]
  · simp only [drawLine, hc, if_false]
    rw [stTexts_pushOp, opsTexts_line]

theorem stTexts_drawImage (dims : Option (ℚ × ℚ)) (st : PdfState) :
    stTexts (drawImage dims st) = stTexts st := by
  match dims with
  | none => simp [drawImage]
  | some (iw, ih) =>
    by_cases hc : st.y - ih * min (pdfMaxW / iw) 1 < pdfMargin
    · simp only [drawImage, hc, if_true]
      rw [stTexts_pushOp, stTexts_newPage, opsTexts_pic, List.append_nil]
    · simp only [drawImage, hc, if_false]
      rw [stTexts_pushOp, opsTexts_pic, List.append_nil]

theorem foldlDraw_texts (L : List Str) :
    ∀ st : PdfState,
      stTexts (L.foldl (fun a ln => drawLine ln a) st) = stTexts st ++ L := by
  induction L with
  | nil => intro st; simp
  | cons l L ih =>
    intro st
    simp only [List.foldl_cons]
    rw [ih, stTexts_drawLine]
    simp

theorem stTexts_procSeg (f : Str → ℚ) (png jpg : List ℕ → Option (ℚ × ℚ))
    (ib : List (Str × List ℕ)) (st : PdfState) (seg : Str ⊕ Str) :
    stTexts (procSeg f png jpg ib st seg) = stTexts st ++ segTexts f seg := by
  match seg with
  | Sum.inl part =>
    by_cases ht : jsTrim (stripAllHtml part) = []
    · simp [procSeg, segTexts, ht]
    · simp only [procSeg, segTexts, ht, if_false, pushLine]
      exact foldlDraw_texts _ st
  | Sum.inr src =>
    simp only [procSeg, segTexts, List.append_nil]
    rcases hq : lookupAssoc ib (jsTrim (basenameOf src)) with _ | bytes
    · simp [hq]
    · simp only [hq]
      rcases hp : png bytes with _ | d
      · simp only [hp]
        exact stTexts_drawImage _ st
      · simp only [hp]
        exact stTexts_drawImage _ st

theorem segsFold_texts (f : Str → ℚ) (png jpg : List ℕ → Option (ℚ × ℚ))
    (ib : List (Str × List ℕ)) (segs : List (Str ⊕ Str)) :
    ∀ st : PdfState,
      stTexts (segs.foldl (procSeg f png jpg ib) st) =
        stTexts st ++ ((segs.map (segTexts f)).flatten) := by
  induction segs with
  | nil => intro st; simp
  | cons seg rest ih =>
    intro st
    simp only [List.foldl_cons, List.map_cons, List.flatten_cons]
    rw [ih, stTexts_procSeg]
    simp [List.append_assoc]

theorem stTexts_procChapter (f : Str → ℚ) (png jpg : List ℕ → Option (ℚ × ℚ))
    (ib : List (Str × List ℕ)) (st : PdfState) (ch : Chapter) :
    stTexts (procChapter f png jpg ib st ch) =
      stTexts st ++ ((pdfSegs ch.html).map (segTexts f)).flatten := by
  simp only [procChapter]
  split
  · rw [stTexts_flush]
    exact segsFold_texts f png jpg ib _ st
  · rw [stTexts_setY]
    exact segsFold_texts f png jpg ib _ st

theorem chaptersFold_texts (f : Str → ℚ) (png jpg : List ℕ → Option (ℚ × ℚ))
    (ib : List (Str × List ℕ)) (chs : List Chapter) :
    ∀ st : PdfState,
      stTexts (chs.foldl (procChapter f png jpg ib) st) =
        stTexts st ++ (chs.map (fun ch => ((pdfSegs ch.html).map (segTexts f)).flatten)).flatten := by
  induction chs with
  | nil => intro st; simp
  | cons ch rest ih =>
    intro st
    simp only [List.foldl_cons, List.map_cons, List.flatten_cons]
    rw [ih, stTexts_procChapter]
    simp [List.append_assoc]

theorem pagesTexts_final (st : PdfState) :
    pagesTexts (st.pages ++ [st.cur]) = stTexts st := by
  simp [pagesTexts, stTexts]

def noPicOps (ops : List PdfOp) : Prop := ∀ op ∈ ops, ∀ y w h, op ≠ PdfOp.pic y w h

def stNoPic (st : PdfState) : Prop := (∀ pg ∈ st.pages, noPicOps pg) ∧ noPicOps st.cur

theorem noPicOps_append {a b : List PdfOp} (ha : noPicOps a) (hb : noPicOps b) :
    noPicOps (a ++ b) := by
  intro op hop
  rcases List.mem_append.1 hop with h | h
  · exact ha op h
  · exact hb op h

theorem stNoPic_newPage {st : PdfState} (h : stNoPic st) : stNoPic (newPage st) := by
  refine ⟨?_, ?_⟩
  · intro pg hpg
    rcases List.mem_append.1 hpg with hm | hm
    · exact h.1 pg hm
    · rw [List.mem_singleton.1 hm]; exact h.2
  · intro op hop; simp [newPage] at hop

theorem stNoPic_drawLine {st : PdfState} (h : stNoPic st) (ln : Str) :
    stNoPic (drawLine ln st) := by
  have hsingle : ∀ y0 : ℚ, noPicOps [PdfOp.line ln y0] := by
    intro y0 op hop y w hh
    rw [List.mem_singleton.1 hop]
    simp
  by_cases hc : st.y - pdfLineH < pdfMargin
  · have h1 := stNoPic_newPage h
    exact ⟨by simpa [drawLine, hc] using h1.1,
      by simpa [drawLine, hc] using noPicOps_append h1.2 (hsingle _)⟩
  · exact ⟨by simpa [drawLine, hc] using h.1,
      by simpa [drawLine, hc] using noPicOps_append h.2 (hsingle _)⟩

theorem stNoPic_procSeg (f : Str → ℚ) {png jpg : List ℕ → Option (ℚ × ℚ)}
    (hpng : ∀ b, png b = none) (hjpg : ∀ b, jpg b = none)
    (ib : List (Str × List ℕ)) {st : PdfState} (h : stNoPic st) (seg : Str ⊕ Str) :
    stNoPic (procSeg f png jpg ib st seg) := by
  match seg with
  | Sum.inl part =>
    simp only [procSeg]
    split
    · exact h
    · exact foldl_preserve stNoPic _ (fun a b ha => stNoPic_drawLine ha b) _ st h
  | Sum.inr src =>
    simp only [procSeg]
    rcases hq : lookupAssoc ib (jsTrim (basenameOf src)) with _ | bytes
    · simp only [hq]; exact h
    · simp only [hq, hpng bytes, hjpg bytes]
      simpa [drawImage] using h

theorem stNoPic_procChapter (f : Str → ℚ) {png jpg : List ℕ → Option (ℚ × ℚ)}
    (hpng : ∀ b, png b = none) (hjpg : ∀ b, jpg b = none)
    (ib : List (Str × List ℕ)) {st : PdfState} (h : stNoPic st) (ch : Chapter) :
    stNoPic (procChapter f png jpg ib st ch) := by
  have h1 : stNoPic ((pdfSegs ch.html).foldl (procSeg f png jpg ib) st) :=
    foldl_preserve stNoPic _ (fun a b ha => stNoPic_procSeg f hpng hjpg ib ha b) _ st h
  simp only [procChapter]
  split
  · refine ⟨?_, ?_⟩
    · intro pg hpg
      rcases List.mem_append.1 hpg with hm | hm
      · exact h1.1 pg hm
      · rw [List.mem_singleton.1 hm]; exact h1.2
    · intro op hop; simp at hop
  · exact ⟨h1.1, h1.2⟩

/-- C7: modelToPDF always succeeds and its drawn text is unaffected by
per-asset image failures: the sequence of drawn text lines equals the one
computed from the chapters alone, whatever the embedders and the image map do
(an unresolvable src is skipped over, a doubly failing embed is skipped), and
when every embed attempt fails no image operation appears at all. -/
theorem C7_modelToPDF_perasset_resilience (f : Str → ℚ)
    (png jpg : List ℕ → Option (ℚ × ℚ)) (m : BookModel) :
    pagesTexts (modelToPDF f png jpg m) = pdfTextLines f m ∧
      ((∀ b, png b = none) → (∀ b, jpg b = none) →
        ∀ pg ∈ modelToPDF f png jpg m, noPicOps pg) := by
  constructor
  · have h := chaptersFold_texts f png jpg (imgBytesOf m) m.chapters
      { pages := [], cur := [], y := pdfPageH - pdfMargin }
    simp only [modelToPDF, pdfTextLines]
    rw [pagesTexts_final, h]
    simp [stTexts, pagesTexts, opsTexts_nil]
  · intro hpng hjpg pg hpg
    have h0 : stNoPic { pages := [], cur := [], y := pdfPageH - pdfMargin } := by
      constructor
      · intro pg2 hpg2; simp at hpg2
      · intro op hop; simp at hop
    have hF := foldl_preserve stNoPic _
      (fun a b ha => stNoPic_procChapter f hpng hjpg (imgBytesOf m) ha b) m.chapters _ h0
    simp only [modelToPDF] at hpg
    rcases List.mem_append.1 hpg with hmem | hmem
    · exact hF.1 pg hmem
    · rw [List.mem_singleton.1 hmem]; exact hF.2

/-- Witness for C7: a chapter referencing a missing image, with failing
embedders. -/
theorem C7_modelToPDF_perasset_resilience_witness :
    pagesTexts (modelToPDF (fun _ => (0 : ℚ)) (fun _ => none) (fun _ => none)
        { title := none, author := none
          chapters := [{ title := none
                         html := "hello <img src=\"missing.png\"/> world".data }]
          images := [] }) =
      pdfTextLines (fun _ => (0 : ℚ))
        { title := none, author := none
          chapters := [{ title := none
                         html := "hello <img src=\"missing.png\"/> world".data }]
          images := [] } ∧
      ∀ pg ∈ modelToPDF (fun _ => (0 : ℚ)) (fun _ => none) (fun _ => none)
        { title := none, author := none
          chapters := [{ title := none
                         html := "hello <img src=\"missing.png\"/> world".data }]
          images := [] }, noPicOps pg := by
  have h := C7_modelToPDF_perasset_resilience (fun _ => (0 : ℚ))
    (fun _ => none) (fun _ => none)
    { title := none, author := none
      chapters := [{ title := none
                     html := "hello <img src=\"missing.png\"/> world".data }]
      images := [] }
  exact ⟨h.1, h.2 (fun _ => rfl) (fun _ => rfl)⟩

/- -----------------------------------------------------------------
   Single-HTML exporter modelToSingleHTML (src/lib/ebook-utils.ts
   lines 694-726), with u8ToBase64 (lines 79-83) modelling btoa of the
   byte string.
------------------------------------------------------------------ -/

def b64Alphabet : Str :=
  "ABCDEFGHIJKLMNOPQRSTUVWXYZabcdefghijklmnopqrstuvwxyz0123456789+/".data

def b64Char (n : ℕ) : Char := b64Alphabet.getD n '='

/-- Standard base64 of a byte sequence (btoa composed with the byte-to-char
string build of u8ToBase64). -/
def u8ToBase64 : List ℕ → Str
  | [] => []
  | [a] => [b64Char (a / 4), b64Char (a % 4 * 16), '=', '=']
  | [a, b] => [b64Char (a / 4), b64Char (a % 4 * 16 + b / 16), b64Char (b % 16 * 4), '=']
  | a :: b :: c :: rest =>
    b64Char (a / 4) :: b64Char (a % 4 * 16 + b / 16) ::
      b64Char (b % 16 * 4 + c / 64) :: b64Char (c % 64) :: u8ToBase64 rest

/-- JavaScript falsy-or on an optional string (empty string is falsy). -/
def orDefault (o : Option Str) (d : Str) : Str :=
  match o with
  | some t => if t = [] then d else t
  | none => d

/-- The data-URI record keyed by asset id. -/
def dataURIsOf (m : BookModel) : List (Str × Str) :=
  m.images.foldl
    (fun acc p => insertAssoc acc p.2.id
      ("data:".data ++ p.2.mime ++ ";base64,".data ++ u8ToBase64 p.2.data)) []

/-- The replace callback: the matched tag with the first occurrence of the
captured src replaced by its data URI when the basename resolves, by the src
itself (a no-op) when it does not. -/
def rewriteTag (uris : List (Str × Str)) (matched src : Str) : Str :=
  replaceFirstStr src ((lookupAssoc uris (basenameOf src)).getD src) matched

def interleaveJoin : List Str → List Str → Str
  | [], _ => []
  | p :: ps, [] => p ++ interleaveJoin ps []
  | p :: ps, t :: ts => p ++ t ++ interleaveJoin ps ts

/-- JavaScript html.replace(img regex global, callback). -/
def replaceImgsGreedy (uris : List (Str × Str)) (html : Str) : Str :=
  let p := imgScan true html
  interleaveJoin p.1 (p.2.map (fun mt => rewriteTag uris mt.1 mt.2.2.1))

def singleHtmlPre : Str :=
  "<!doctype html>\n<html>\n<head>\n  <meta charset=\"utf-8\"/>\n  <title>".data

def singleHtmlMid : Str :=
  ("</title>\n  <style>\n    body\x7bfont-family:system-ui,-apple-system,Segoe UI," ++
   "Roboto,Inter,Ubuntu,Arial,sans-serif;line-height:1.6;padding:1.25rem;" ++
   "max-width:820px;margin:auto;\x7d\n    img\x7bmax-width:100%;height:auto;\x7d\n" ++
   "  </style>\n</head>\n<body>\n").data

def singleHtmlSuf : Str := "\n</body>\n</html>".data

/-- modelToSingleHTML: chapters rewritten and joined with a rule separator,
wrapped in the fixed document shell. -/
def modelToSingleHTML (m : BookModel) : Str :=
  singleHtmlPre ++ escapeXml (orDefault m.title "Export".data) ++ singleHtmlMid ++
    joinSep "\n<hr/>\n".data
      (m.chapters.map (fun c => replaceImgsGreedy (dataURIsOf m) c.html)) ++
    singleHtmlSuf

/-- The img srcs appearing in a document per the scanner. -/
def imgSrcsOf (doc : Str) : List Str := ((imgScan true doc).2).map (fun mt => mt.2.2.1)

theorem startsWith_append_drop (pat : Str) :
    ∀ s, startsWith pat s = true → pat ++ s.drop pat.length = s := by
  induction pat with
  | nil => intro s _; simp
  | cons p ps ih =>
    intro s h
    match s with
    | [] => simp [startsWith] at h
    | c :: cs =>
      simp only [startsWith, Bool.and_eq_true, decide_eq_true_eq] at h
      simp only [List.cons_append, List.length_cons, List.drop_succ_cons]
      rw [h.1, ih cs h.2]

theorem replaceFirstStr_self (pat : Str) :
    ∀ s, replaceFirstStr pat pat s = s := by
  intro s
  induction s with
  | nil => simp [replaceFirstStr]
  | cons c cs ih =>
    simp only [replaceFirstStr]
    split
    · rename_i h
      simp only [Bool.and_eq_true, decide_eq_true_eq] at h
      exact startsWith_append_drop pat (c :: cs) h.1
    · rw [ih]

theorem lookupAssoc_insertAssoc_val {α : Type} (k : Str) (v : α) :
    ∀ (acc : List (Str × α)) (k2 : Str) (u : α),
      lookupAssoc (insertAssoc acc k v) k2 = some u →
      u = v ∨ lookupAssoc acc k2 = some u := by
  intro acc
  induction acc with
  | nil =>
    intro k2 u h
    simp only [insertAssoc, lookupAssoc] at h
    by_cases hk : k = k2
    · rw [if_pos hk] at h
      exact Or.inl (Option.some.inj h).symm
    · rw [if_neg hk] at h
      exact Option.noConfusion h
  | cons p rest ih =>
    obtain ⟨k0, v0⟩ := p
    intro k2 u h
    simp only [insertAssoc] at h
    by_cases hk : k0 = k
    · rw [if_pos hk] at h
      simp only [lookupAssoc] at h ⊢
      by_cases hk2 : k0 = k2
      · rw [if_pos hk2] at h ⊢
        exact Or.inl (Option.some.inj h).symm
      · rw [if_neg hk2] at h ⊢
        exact Or.inr h
    · rw [if_neg hk] at h
      simp only [lookupAssoc] at h ⊢
      by_cases hk2 : k0 = k2
      · rw [if_pos hk2] at h ⊢
        exact Or.inr h
      · rw [if_neg hk2] at h ⊢
        exact ih k2 u h

theorem dataURIsOf_values (m : BookModel) :
    ∀ k uri, lookupAssoc (dataURIsOf m) k = some uri →
      startsWith "data:".data uri = true := by
  have hgen : ∀ (images : List (Str × ImageAsset)) (acc : List (Str × Str)),
      (∀ k uri, lookupAssoc acc k = some uri → startsWith "data:".data uri = true) →
      ∀ k uri,
        lookupAssoc (images.foldl
          (fun acc2 p => insertAssoc acc2 p.2.id
            ("data:".data ++ p.2.mime ++ ";base64,".data ++ u8ToBase64 p.2.data)) acc)
          k = some uri →
        startsWith "data:".data uri = true := by
    intro images
    induction images with
    | nil => intro acc hacc k uri h; exact hacc k uri h
    | cons p rest ih =>
      intro acc hacc k uri h
      simp only [List.foldl_cons] at h
      refine ih _ ?_ k uri h
      intro k2 u2 h2
      rcases lookupAssoc_insertAssoc_val p.2.id _ acc k2 u2 h2 with hv | hv
      · rw [hv]; rfl
      · exact hacc k2 u2 hv
  intro k uri h
  exact hgen m.images [] (fun k2 u2 h2 => Option.noConfusion h2) k uri h

/-- C8 amended: the output document is the fixed shell around the chapters
joined with the rule separator; within each chapter every matched img tag
whose src basename resolves in the images record has the first occurrence of
its src replaced by that asset's data URI (data URIs always start with data:),
while a tag whose src basename does not resolve is left entirely unchanged —
so unresolvable references may remain as external references. -/
theorem C8_modelToSingleHTML_amended (m : BookModel) :
    modelToSingleHTML m =
      singleHtmlPre ++ escapeXml (orDefault m.title "Export".data) ++ singleHtmlMid ++
        joinSep "\n<hr/>\n".data
          (m.chapters.map (fun c => replaceImgsGreedy (dataURIsOf m) c.html)) ++
        singleHtmlSuf ∧
    (∀ k uri, lookupAssoc (dataURIsOf m) k = some uri →
      startsWith "data:".data uri = true) ∧
    (∀ ch ∈ m.chapters, ∀ mt ∈ (imgScan true ch.html).2,
      (lookupAssoc (dataURIsOf m) (basenameOf mt.2.2.1) = none →
        rewriteTag (dataURIsOf m) mt.1 mt.2.2.1 = mt.1) ∧
      (∀ uri, lookupAssoc (dataURIsOf m) (basenameOf mt.2.2.1) = some uri →
        rewriteTag (dataURIsOf m) mt.1 mt.2.2.1 =
          replaceFirstStr mt.2.2.1 uri mt.1)) := by
  refine ⟨rfl, dataURIsOf_values m, ?_⟩
  intro ch _ mt _
  constructor
  · intro hnone
    simp only [rewriteTag, hnone, Option.getD_none]
    exact replaceFirstStr_self _ _
  · intro uri hsome
    simp only [rewriteTag, hsome, Option.getD_some]

/-- Witness for C8 amended, at a model with one resolvable and one
unresolvable image reference. -/
theorem C8_modelToSingleHTML_amended_witness :
    rewriteTag (dataURIsOf
        { title := none, author := none
          chapters := [{ title := none
                         html := "<img src=\"a.png\"/><img src=\"missing.png\"/>".data }]
          images := [("a.png".data,
            { id := "a.png".data, mime := "image/png".data, data := [1, 2, 3] })] })
        "<img src=\"missing.png\"/>".data "missing.png".data =
      "<img src=\"missing.png\"/>".data ∧
    rewriteTag (dataURIsOf
        { title := none, author := none
          chapters := [{ title := none
                         html := "<img src=\"a.png\"/><img src=\"missing.png\"/>".data }]
          images := [("a.png".data,
            { id := "a.png".data, mime := "image/png".data, data := [1, 2, 3] })] })
        "<img src=\"a.png\"/>".data "a.png".data =
      replaceFirstStr "a.png".data "data:image/png;base64,AQID".data
        "<img src=\"a.png\"/>".data := by
  have h := C8_modelToSingleHTML_amended
    { title := none, author := none
      chapters := [{ title := none
                     html := "<img src=\"a.png\"/><img src=\"missing.png\"/>".data }]
      images := [("a.png".data,
        { id := "a.png".data, mime := "image/png".data, data := [1, 2, 3] })] }
  have h2 := h.2.2 _ (List.mem_singleton.2 rfl)
  constructor
  · exact (h2 ("<img src=\"missing.png\"/>".data, " ".data, "missing.png".data, "/".data)
      (by decide)).1 (by decide)
  · exact (h2 ("<img src=\"a.png\"/>".data, " ".data, "a.png".data, "/".data)
      (by decide)).2 "data:image/png;base64,AQID".data (by decide)

set_option maxRecDepth 8000 in
/-- C8 counterexample: for a model whose single chapter references an image
absent from the images record, the exported document still contains that img
src verbatim, which is not a data URI — refuting the claim that no external
resource references remain for every BookModel. -/
theorem C8_modelToSingleHTML_counterexample :
    imgSrcsOf (modelToSingleHTML
        { title := none, author := none
          chapters := [{ title := none, html := "<img src=\"missing.png\"/>".data }]
          images := [] }) = ["missing.png".data] ∧
    startsWith "data:".data "missing.png".data = false := by
  refine ⟨?_, ?_⟩ <;> decide

/- -----------------------------------------------------------------
   EPUB exporter modelToEPUB (src/lib/ebook-utils.ts lines 506-604),
   modelled as the ordered list of zip entries written.  Date.now() is an
   external clock read: the two reads (OPF identifier, NCX uid) are the
   explicit parameters t1 and t2.
------------------------------------------------------------------ -/

inductive ZEntry where
  | textE (s : Str)
  | binE (b : List ℕ)
deriving DecidableEq, Repr

def digitChar (n : ℕ) : Char := Char.ofNat (48 + n)

def natToStrAux : ℕ → ℕ → Str → Str
  | 0, _, acc => acc
  | fuel + 1, n, acc =>
    if n < 10 then digitChar n :: acc
    else natToStrAux fuel (n / 10) (digitChar (n % 10) :: acc)

def natToStr (n : ℕ) : Str := natToStrAux (n + 1) n []

/-- JavaScript String(n).padStart(4, zero). -/
def padZeros (s : Str) (w : ℕ) : Str := List.replicate (w - s.length) '0' ++ s

def chapName (i : ℕ) : Str :=
  "chap-".data ++ padZeros (natToStr (i + 1)) 4 ++ ".xhtml".data

/-- The EPUB exporter's img rewrite: the lazy three-group pattern, replaced by
an img tag pointing into media/ by basename. -/
def epubFixImgs (html : Str) : Str :=
  let p := imgScan false html
  interleaveJoin p.1 (p.2.map (fun mt =>
    "<img".data ++ mt.2.1 ++ "src=\"media/".data ++ basenameOf mt.2.2.1 ++
      "\"".data ++ mt.2.2.2 ++ ['>']))

def epubContainerXml : Str :=
  ("<?xml version=\"1.0\" encoding=\"UTF-8\"?>\n" ++
   "<container version=\"1.0\" xmlns=\"urn:oasis:names:tc:opendocument:xmlns:container\">\n" ++
   "  <rootfiles><rootfile full-path=\"OEBPS/content.opf\" media-type=\"application/oebps-package+xml\"/></rootfiles>\n" ++
   "</container>").data

def chapterXhtml (m : BookModel) (ch : Chapter) : Str :=
  ("<?xml version=\"1.0\" encoding=\"UTF-8\"?>\n" ++
   "<!DOCTYPE html>\n" ++
   "<html xmlns=\"http://www.w3.org/1999/xhtml\" xml:lang=\"en\">\n" ++
   "<head><meta charset=\"UTF-8\"/><title>").data ++
  escapeXml (orDefault ch.title (orDefault m.title "Chapter".data)) ++
  "</title></head>\n<body>".data ++ epubFixImgs ch.html ++ "</body>\n</html>".data

def epubImageItems (m : BookModel) : List Str :=
  m.images.map (fun p =>
    "<item id=\"".data ++ escapeXml p.2.id ++ "\" href=\"media/".data ++
      escapeXml p.2.id ++ "\" media-type=\"".data ++ p.2.mime ++ "\"/>".data)

def epubManifestItems (m : BookModel) : Str :=
  joinSep ['\n'] ((List.range m.chapters.length).map (fun i =>
    "<item id=\"chap".data ++ natToStr (i + 1) ++ "\" href=\"".data ++ chapName i ++
      "\" media-type=\"application/xhtml+xml\"/>".data)) ++
  (if (epubImageItems m).length = 0 then []
   else '\n' :: joinSep ['\n'] (epubImageItems m))

def epubSpine (m : BookModel) : Str :=
  joinSep ['\n'] ((List.range m.chapters.length).map (fun i =>
    "<itemref idref=\"chap".data ++ natToStr (i + 1) ++ "\"/>".data))

def epubOpf (m : BookModel) (t1 : ℕ) : Str :=
  ("<?xml version=\"1.0\" encoding=\"UTF-8\"?>\n" ++
   "<package xmlns=\"http://www.idpf.org/2007/opf\" unique-identifier=\"bookid\" version=\"2.0\">\n" ++
   "  <metadata xmlns:dc=\"http://purl.org/dc/elements/1.1/\">\n" ++
   "    <dc:title>").data ++ escapeXml (orDefault m.title "Untitled".data) ++
  "</dc:title>\n    <dc:creator>".data ++ escapeXml (orDefault m.author "Unknown".data) ++
  ("</dc:creator>\n" ++
   "    <dc:language>en</dc:language>\n" ++
   "    <dc:identifier id=\"bookid\">book-").data ++ natToStr t1 ++
  ("</dc:identifier>\n" ++
   "  </metadata>\n" ++
   "  <manifest>\n" ++
   "    ").data ++ epubManifestItems m ++
  ("\n    <item id=\"ncx\" href=\"toc.ncx\" media-type=\"application/x-dtbncx+xml\"/>\n" ++
   "  </manifest>\n" ++
   "  <spine toc=\"ncx\">\n" ++
   "    ").data ++ epubSpine m ++
  "\n  </spine>\n</package>".data

def epubNav (m : BookModel) : Str :=
  joinSep ['\n'] ((List.range m.chapters.length).map (fun i =>
    "<navPoint id=\"p".data ++ natToStr (i + 1) ++ "\" playOrder=\"".data ++
      natToStr (i + 1) ++ "\"><navLabel><text>Chapter ".data ++ natToStr (i + 1) ++
      "</text></navLabel><content src=\"".data ++ chapName i ++ "\"/></navPoint>".data))

def epubNcx (m : BookModel) (t2 : ℕ) : Str :=
  ("<?xml version=\"1.0\" encoding=\"UTF-8\"?>\n" ++
   "<ncx xmlns=\"http://www.daisy.org/z3986/2005/ncx/\" version=\"2005-1\">\n" ++
   "  <head><meta name=\"dtb:uid\" content=\"book-").data ++ natToStr t2 ++
  "\"/></head>\n  <docTitle><text>".data ++
  escapeXml (orDefault m.title "Untitled".data) ++
  "</text></docTitle>\n  <navMap>".data ++ epubNav m ++ "</navMap>\n</ncx>".data

/-- modelToEPUB as the ordered list of zip entries it writes; t1 and t2 are
the two Date.now() clock reads (OPF identifier, then NCX uid). -/
def modelToEPUBFiles (m : BookModel) (t1 t2 : ℕ) : List (Str × ZEntry) :=
  ("mimetype".data, ZEntry.textE "application/epub+zip".data) ::
  ("META-INF/container.xml".data, ZEntry.textE epubContainerXml) ::
  (m.images.map (fun p => ("OEBPS/media/".data ++ p.2.id, ZEntry.binE p.2.data)) ++
   (m.chapters.enum.map (fun pi =>
     ("OEBPS/".data ++ chapName pi.1, ZEntry.textE (chapterXhtml m pi.2)))) ++
   [("OEBPS/content.opf".data, ZEntry.textE (epubOpf m t1)),
    ("OEBPS/toc.ncx".data, ZEntry.textE (epubNcx m t2))])

/-- Mask the two clock-bearing entries of an EPUB file list. -/
def maskClockEntries (files : List (Str × ZEntry)) : List (Str × Option ZEntry) :=
  files.map (fun p =>
    (p.1, if p.1 = "OEBPS/content.opf".data ∨ p.1 = "OEBPS/toc.ncx".data then none
          else some p.2))

set_option maxRecDepth 8000 in
/-- C5 counterexample: exporting the very same empty BookModel to EPUB at two
different clock readings produces different zip entries, refuting byte-identical
determinism across runs. -/
theorem C5_epub_determinism_counterexample :
    modelToEPUBFiles { title := none, author := none, chapters := [], images := [] } 0 0 ≠
      modelToEPUBFiles { title := none, author := none, chapters := [], images := [] } 1 1 := by
  decide

/-- C5 amended: a conversion is a pure function of the model and the clock:
all entries other than content.opf and toc.ncx are identical across runs
whatever the clock reads, and two runs with equal clock readings produce
identical entries; only the Date.now()-derived identifier fields vary. -/
theorem C5_epub_determinism_amended (m : BookModel) (t1 t2 t1p t2p : ℕ) :
    maskClockEntries (modelToEPUBFiles m t1 t2) =
      maskClockEntries (modelToEPUBFiles m t1p t2p) ∧
    (t1 = t1p → t2 = t2p → modelToEPUBFiles m t1 t2 = modelToEPUBFiles m t1p t2p) := by
  constructor
  · simp [modelToEPUBFiles, maskClockEntries]
  · intro h1 h2
    rw [h1, h2]

/-- Witness for C5 amended at a concrete model and concrete equal clocks. -/
theorem C5_epub_determinism_amended_witness :
    maskClockEntries (modelToEPUBFiles
        { title := none, author := none, chapters := [], images := [] } 5 7) =
      maskClockEntries (modelToEPUBFiles
        { title := none, author := none, chapters := [], images := [] } 8 9) ∧
    modelToEPUBFiles { title := none, author := none, chapters := [], images := [] } 5 7 =
      modelToEPUBFiles { title := none, author := none, chapters := [], images := [] } 5 7 := by
  have h := C5_epub_determinism_amended
    { title := none, author := none, chapters := [], images := [] } 5 7 8 9
  have h2 := C5_epub_determinism_amended
    { title := none, author := none, chapters := [], images := [] } 5 7 5 7
  exact ⟨h.1, h2.2 rfl rfl⟩

/- -----------------------------------------------------------------
   Archive accessor model: a ZIP is the ordered list of its entries;
   each entry carries its raw bytes and the externally decoded text view.
------------------------------------------------------------------ -/

structure ZipEntry where
  name : Str
  text : Str
  bytes : List ℕ
deriving DecidableEq, Repr

abbrev Zip := List ZipEntry

/-- JSZip zip.file(path): the first entry with exactly that path. -/
def zipGet (z : Zip) (p : Str) : Option ZipEntry := z.find? (fun e => e.name = p)

/- ----- document-tree selector helpers over the markup accessor ----- -/

mutual
def allElemsD : Dom → List Dom
  | Dom.text _ => []
  | Dom.elem t a ch => Dom.elem t a ch :: allElemsL ch
def allElemsL : List Dom → List Dom
  | [] => []
  | d :: ds => allElemsD d ++ allElemsL ds
end

def tagOf : Dom → Str
  | Dom.elem t _ _ => t
  | Dom.text _ => []

def attrOf (d : Dom) (name : Str) : Option Str :=
  match d with
  | Dom.elem _ attrs _ => lookupAssoc attrs name
  | Dom.text _ => none

def childrenOf : Dom → List Dom
  | Dom.elem _ _ ch => ch
  | Dom.text _ => []

/-- querySelector by element name: first matching element in document order. -/
def firstElemNamed (doms : List Dom) (name : Str) : Option Dom :=
  (allElemsL doms).find? (fun d => tagOf d = name)

/-- querySelectorAll of a parent-child selector. -/
def childItems (doms : List Dom) (parent child : Str) : List Dom :=
  ((allElemsL doms).filter (fun d => tagOf d = parent)).flatMap
    (fun d => (childrenOf d).filter (fun c => tagOf c = child))

mutual
def textContentD : Dom → Str
  | Dom.text s => s
  | Dom.elem _ _ ch => textContentL ch
def textContentL : List Dom → Str
  | [] => []
  | d :: ds => textContentD d ++ textContentL ds
end

/-- Element textContent with the JavaScript falsy-to-undefined coercion. -/
def textOpt (d : Option Dom) : Option Str :=
  match d with
  | some e => if textContentD e = [] then none else some (textContentD e)
  | none => none

/- ----- innerHTML serializer of the DOMParser stand-in ----- -/

def escTextHtml (s : Str) : Str :=
  s.flatMap fun c =>
    if c = '&' then "&amp;".data
    else if c = '<' then "&lt;".data
    else if c = '>' then "&gt;".data
    else [c]

def escAttrHtml (s : Str) : Str :=
  s.flatMap fun c =>
    if c = '&' then "&amp;".data
    else if c = '"' then "&quot;".data
    else [c]

mutual
def serializeD : Dom → Str
  | Dom.text s => escTextHtml s
  | Dom.elem t attrs ch =>
    '<' :: (lowerS t ++
      (attrs.flatMap (fun a => ' ' :: (a.1 ++ '=' :: '"' :: (escAttrHtml a.2 ++ ['"'])))) ++
      (if voidTags.contains (lowerS t) then ">".data
       else '>' :: (serializeL ch ++ ("</".data ++ lowerS t ++ ">".data))))
def serializeL : List Dom → Str
  | [] => []
  | d :: ds => serializeD d ++ serializeL ds
end

/- -----------------------------------------------------------------
   EPUB parser parseEPUBToModel (src/lib/ebook-utils.ts lines 211-310).
   px is the XML markup accessor, ph the HTML markup accessor (returning
   the document body children), z the opened archive.
------------------------------------------------------------------ -/

def epubRootfile (containerDoc : List Dom) : Str :=
  match firstElemNamed containerDoc "rootfile".data with
  | some rf => (attrOf rf "full-path".data).getD []
  | none => []

def manifestOf (opfDoc : List Dom) : List (Str × (Str × Str)) :=
  (childItems opfDoc "manifest".data "item".data).foldl
    (fun acc it => insertAssoc acc ((attrOf it "id".data).getD [])
      ((attrOf it "href".data).getD [], (attrOf it "media-type".data).getD [])) []

def spineIdrefs (opfDoc : List Dom) : List Str :=
  (childItems opfDoc "spine".data "itemref".data).filterMap (fun ir =>
    match attrOf ir "idref".data with
    | some v => if v = [] then none else some v
    | none => none)

def epubMetaText (opfDoc : List Dom) (name : Str) : Option Str :=
  textOpt (childItems opfDoc "metadata".data name).head?

def epubChapterStep (ph : Str → List Dom) (z : Zip)
    (manifest : List (Str × (Str × Str))) (resPath : Str → Str)
    (acc : List Chapter × List Str) (idref : Str) : List Chapter × List Str :=
  match lookupAssoc manifest idref with
  | none => acc
  | some mf =>
    if containsStrCI "html".data mf.2 then
      match zipGet z (resPath mf.1) with
      | none => acc
      | some docFile =>
        let doc := ph docFile.text
        let hrefs := (allElemsL doc).foldl (fun hs d =>
          if upperS (tagOf d) = "IMG".data then
            match attrOf d "src".data with
            | some srcRaw =>
              if jsTrim srcRaw = [] then hs
              else
                if hs.contains (normalize (joinHref mf.1 (jsTrim srcRaw))) then hs
                else hs ++ [normalize (joinHref mf.1 (jsTrim srcRaw))]
            | none => hs
          else hs) acc.2
        (acc.1 ++ [{ title := none, html := serializeL doc }], hrefs)
    else acc

def epubImagesStep (z : Zip) (manifest : List (Str × (Str × Str)))
    (resPath : Str → Str) (images : List (Str × ImageAsset)) (href : Str) :
    List (Str × ImageAsset) :=
  match (manifest.map Prod.snd).find? (fun v => normalize v.1 = href) with
  | none => images
  | some mf =>
    match zipGet z (resPath mf.1) with
    | none => images
    | some zf =>
      insertAssoc images (basenameOf mf.1)
        { id := basenameOf mf.1, mime := mf.2, data := zf.bytes }

def parseEPUBToModel (px ph : Str → List Dom) (z : Zip) : Except Str BookModel :=
  match zipGet z "META-INF/container.xml".data with
  | none => Except.error "Invalid EPUB: missing container.xml".data
  | some centry =>
    if epubRootfile (px centry.text) = [] then
      Except.error "Invalid EPUB: cannot find OPF package.".data
    else
      match zipGet z (epubRootfile (px centry.text)) with
      | none => Except.error "Invalid EPUB: missing OPF package.".data
      | some oentry =>
        if (spineIdrefs (px oentry.text)).length = 0 then
          Except.error "Invalid EPUB: empty spine.".data
        else
          let rootfile := epubRootfile (px centry.text)
          let manifest := manifestOf (px oentry.text)
          let baseDir := joinSep ['/'] ((splitOnChar '/' rootfile).dropLast)
          let resPath := fun (p : Str) => if baseDir = [] then p else baseDir ++ '/' :: p
          let cf := (spineIdrefs (px oentry.text)).foldl
            (epubChapterStep ph z manifest resPath) ([], [])
          Except.ok
            { title := epubMetaText (px oentry.text) "dc:title".data
              author := epubMetaText (px oentry.text) "dc:creator".data
              chapters := cf.1
              images := cf.2.foldl (epubImagesStep z manifest resPath) [] }

/- -----------------------------------------------------------------
   CBZ parser parseCBZToModel (lines 313-347)
------------------------------------------------------------------ -/

def isCbzImageName (name : Str) : Bool :=
  endsWithCI ".png".data name || endsWithCI ".jpg".data name ||
  endsWithCI ".jpeg".data name || endsWithCI ".webp".data name ||
  endsWithCI ".gif".data name || endsWithCI ".bmp".data name ||
  endsWithCI ".avif".data name

def cbzMime (name : Str) : Str :=
  if endsWithCI ".png".data name then "image/png".data
  else if endsWithCI ".jpg".data name || endsWithCI ".jpeg".data name then "image/jpeg".data
  else if endsWithCI ".webp".data name then "image/webp".data
  else if endsWithCI ".gif".data name then "image/gif".data
  else if endsWithCI ".bmp".data name then "image/bmp".data
  else if endsWithCI ".avif".data name then "image/avif".data
  else "application/octet-stream".data

/-- Natural (numeric-aware) comparison tokens, modelling localeCompare with
the numeric collation option: digit runs compare as numbers and sort before
letters, other characters compare case-folded. -/
def natTokensAux : Str → Option ℕ → List (ℕ ⊕ Char)
  | [], none => []
  | [], some n => [Sum.inl n]
  | c :: cs, acc =>
    if c.isDigit then natTokensAux cs (some ((acc.getD 0) * 10 + (c.toNat - 48)))
    else
      match acc with
      | some n => Sum.inl n :: Sum.inr c.toLower :: natTokensAux cs none
      | none => Sum.inr c.toLower :: natTokensAux cs none

def natTokens (s : Str) : List (ℕ ⊕ Char) := natTokensAux s none

def tokLt : ℕ ⊕ Char → ℕ ⊕ Char → Bool
  | Sum.inl a, Sum.inl b => a < b
  | Sum.inl _, Sum.inr _ => true
  | Sum.inr _, Sum.inl _ => false
  | Sum.inr a, Sum.inr b => a.toNat < b.toNat

def tokListLt : List (ℕ ⊕ Char) → List (ℕ ⊕ Char) → Bool
  | [], [] => false
  | [], _ :: _ => true
  | _ :: _, [] => false
  | a :: as, b :: bs => if tokLt a b then true else if tokLt b a then false else tokListLt as bs

def naturalLt (a b : Str) : Bool := tokListLt (natTokens a) (natTokens b)

/-- Stable insertion by a strict order (equal elements keep their order). -/
def insertBy {α : Type} (lt : α → α → Bool) (x : α) : List α → List α
  | [] => [x]
  | y :: ys => if lt x y then x :: y :: ys else y :: insertBy lt x ys

def sortBy {α : Type} (lt : α → α → Bool) (l : List α) : List α :=
  l.foldl (fun acc x => insertBy lt x acc) []

def cbzChapterHtml (id : Str) : Str :=
  "<div style=\"text-align:center;\"><img src=\"".data ++ id ++
    "\" alt=\"".data ++ id ++ "\" style=\"max-width:100%;height:auto;\"/></div>".data

def cbzStep (acc : List (Str × ImageAsset) × List Chapter) (e : ZipEntry) :
    List (Str × ImageAsset) × List Chapter :=
  (insertAssoc acc.1 (basenameOf e.name)
    { id := basenameOf e.name, mime := cbzMime e.name, data := e.bytes },
   acc.2 ++ [{ title := none, html := cbzChapterHtml (basenameOf e.name) }])

def parseCBZToModel (z : Zip) : Except Str BookModel :=
  let files := sortBy (fun a b => naturalLt a.name b.name)
    (z.filter (fun e => isCbzImageName e.name))
  if files.length = 0 then Except.error "No images found in CBZ".data
  else
    Except.ok
      { title := none, author := none
        chapters := (files.foldl cbzStep ([], [])).2
        images := (files.foldl cbzStep ([], [])).1 }

/- -----------------------------------------------------------------
   HTMLZ parser parseHTMLZToModel (lines 385-422)
------------------------------------------------------------------ -/

def isIndexHtmlName (name : Str) : Bool :=
  endsWithCI "index.htm".data name || endsWithCI "index.html".data name ||
  endsWithCI "index.xhtm".data name || endsWithCI "index.xhtml".data name

def isHtmlName (name : Str) : Bool :=
  endsWithCI ".htm".data name || endsWithCI ".html".data name ||
  endsWithCI ".xhtm".data name || endsWithCI ".xhtml".data name

def isHtmlzImageName (name : Str) : Bool :=
  isCbzImageName name || endsWithCI ".svg".data name

def htmlzMime (name : Str) : Str :=
  if endsWithCI ".png".data name then "image/png".data
  else if endsWithCI ".jpg".data name || endsWithCI ".jpeg".data name then "image/jpeg".data
  else if endsWithCI ".webp".data name then "image/webp".data
  else if endsWithCI ".gif".data name then "image/gif".data
  else if endsWithCI ".bmp".data name then "image/bmp".data
  else if endsWithCI ".avif".data name then "image/avif".data
  else if endsWithCI ".svg".data name then "image/svg+xml".data
  else "application/octet-stream".data

def htmlzImagesStep (images : List (Str × ImageAsset)) (f : ZipEntry) :
    List (Str × ImageAsset) :=
  insertAssoc images (basenameOf f.name)
    { id := basenameOf f.name, mime := htmlzMime f.name, data := f.bytes }

def parseHTMLZToModel (ph : Str → List Dom) (titleQ : Str → Option Str)
    (z : Zip) : Except Str BookModel :=
  match (match z.find? (fun e => isIndexHtmlName e.name) with
         | some e => some e
         | none => z.find? (fun e => isHtmlName e.name)) with
  | none => Except.error "No HTML found in archive".data
  | some entry =>
    Except.ok
      { title := match titleQ entry.text with
                 | some t => if t = [] then none else some t
                 | none => none
        author := none
        chapters := [{ title := none, html := serializeL (ph entry.text) }]
        images := (z.filter (fun f => isHtmlzImageName f.name)).foldl htmlzImagesStep [] }

/- -----------------------------------------------------------------
   PDF-as-images parser parsePDFToModelAsImages (lines 458-500): the
   pdf.js renderer is the external page-to-PNG-bytes capability.
------------------------------------------------------------------ -/

def pdfPageChapterHtml (id : Str) (p : ℕ) : Str :=
  "<div style=\"text-align:center;\"><img src=\"".data ++ id ++
    "\" alt=\"Page ".data ++ natToStr p ++
    "\" style=\"max-width:100%;height:auto;\"/></div>".data

def pdfPageId (p : ℕ) : Str := "page-".data ++ padZeros (natToStr p) 4 ++ ".png".data

def pdfPagesStep (render : ℕ → List ℕ)
    (acc : List (Str × ImageAsset) × List Chapter) (p : ℕ) :
    List (Str × ImageAsset) × List Chapter :=
  (insertAssoc acc.1 (pdfPageId p)
    { id := pdfPageId p, mime := "image/png".data, data := render p },
   acc.2 ++ [{ title := none, html := pdfPageChapterHtml (pdfPageId p) p }])

def parsePDFToModelAsImages (numPages : ℕ) (render : ℕ → List ℕ) : BookModel :=
  { title := none, author := none
    chapters := (((List.range numPages).map (· + 1)).foldl (pdfPagesStep render) ([], [])).2
    images := (((List.range numPages).map (· + 1)).foldl (pdfPagesStep render) ([], [])).1 }

/- -----------------------------------------------------------------
   FB2, HTML and TXTZ parsers (lines 350-368, 371-382, 440-455):
   their models carry no images at all.
------------------------------------------------------------------ -/

def parseFB2ToModel (px : Str → List Dom) (text : Str) : BookModel :=
  let doc := px text
  { title := textOpt (firstElemNamed doc "book-title".data)
    author := match textOpt (childItems doc "author".data "first-name".data).head? with
              | some t => some t
              | none => textOpt (childItems doc "author".data "nickname".data).head?
    chapters := ((allElemsL doc).filter (fun d => tagOf d = "body".data)).map (fun b =>
      { title := none
        html := joinSep ['\n'] (((allElemsL (childrenOf b)).filter
          (fun d => tagOf d = "p".data)).map (fun p =>
            "<p>".data ++ escapeXml (textContentD p) ++ "</p>".data)) })
    images := [] }

def parseHTMLToModel (ph : Str → List Dom) (titleQ : Str → Option Str)
    (text : Str) : BookModel :=
  { title := match titleQ text with
             | some t => if t = [] then none else some t
             | none => none
    author := none
    chapters := [{ title := none, html := serializeL (ph text) }]
    images := [] }

def parseTXTZToModel (z : Zip) : Except Str BookModel :=
  match z.find? (fun e => endsWithCI ".txt".data e.name) with
  | none => Except.error "No TXT found in archive".data
  | some entry =>
    Except.ok
      { title := none, author := none
        chapters := [{ title := none
                       html := joinSep ['\n'] ((splitParas entry.text).map
                         (fun p => "<p>".data ++ escapeXml p ++ "</p>".data)) }]
        images := [] }

/- -----------------------------------------------------------------
   C4: empty spine aborts the EPUB parse with a descriptive error
------------------------------------------------------------------ -/

/-- C4: whenever the archive holds a readable container.xml whose rootfile
names a readable OPF package whose spine has no itemref entries,
parseEPUBToModel fails with the descriptive empty-spine error: the result is
an error and not a model, so no chapters and no images are produced (atomic
failure). -/
theorem C4_empty_spine_error (px ph : Str → List Dom) (z : Zip)
    (centry oentry : ZipEntry)
    (h1 : zipGet z "META-INF/container.xml".data = some centry)
    (h2 : epubRootfile (px centry.text) ≠ [])
    (h3 : zipGet z (epubRootfile (px centry.text)) = some oentry)
    (h4 : spineIdrefs (px oentry.text) = []) :
    parseEPUBToModel px ph z = Except.error "Invalid EPUB: empty spine.".data := by
  simp only [parseEPUBToModel, h1, h2, h3, h4]
  simp

/-- Witness for C4 at a concrete two-entry archive and markup oracles. -/
theorem C4_empty_spine_error_witness :
    parseEPUBToModel
      (fun s => if s = "C".data
        then [Dom.elem "rootfile".data [("full-path".data, "content.opf".data)] []]
        else [Dom.elem "spine".data [] []])
      (fun _ => [])
      [{ name := "META-INF/container.xml".data, text := "C".data, bytes := [] },
       { name := "content.opf".data, text := "O".data, bytes := [] }] =
      Except.error "Invalid EPUB: empty spine.".data := by
  exact C4_empty_spine_error _ _ _
    { name := "META-INF/container.xml".data, text := "C".data, bytes := [] }
    { name := "content.opf".data, text := "O".data, bytes := [] }
    (by decide) (by decide) (by decide) (by decide)

/- -----------------------------------------------------------------
   C9: CBZ natural ordering and empty-archive error
------------------------------------------------------------------ -/

/-- C9: parseCBZToModel orders chapters by natural numeric-aware name
comparison — img10.png, img2.png, img1.png come out as img1, img2, img10 —
and an archive with no image-extension entries yields the descriptive
no-images error rather than a model. -/
theorem C9_parseCBZ_natural_order (ez : Zip)
    (hz : ∀ e ∈ ez, isCbzImageName e.name = false) :
    (∃ m, parseCBZToModel
        [{ name := "img10.png".data, text := [], bytes := [] },
         { name := "img2.png".data, text := [], bytes := [] },
         { name := "img1.png".data, text := [], bytes := [] }] = Except.ok m ∧
      m.images.map Prod.fst = ["img1.png".data, "img2.png".data, "img10.png".data] ∧
      m.chapters.map (fun c => c.html) =
        [cbzChapterHtml "img1.png".data, cbzChapterHtml "img2.png".data,
         cbzChapterHtml "img10.png".data]) ∧
    parseCBZToModel ez = Except.error "No images found in CBZ".data := by
  constructor
  · exact ⟨_, rfl, by decide, by decide⟩
  · have hf : ez.filter (fun e => isCbzImageName e.name) = [] := by
      rw [List.filter_eq_nil_iff]
      intro e he
      simp [hz e he]
    simp [parseCBZToModel, hf, sortBy]

/-- Witness for C9 at the empty archive. -/
theorem C9_parseCBZ_natural_order_witness :
    parseCBZToModel [] = Except.error "No images found in CBZ".data :=
  (C9_parseCBZ_natural_order [] (fun e he => absurd he (List.not_mem_nil e))).2

/- -----------------------------------------------------------------
   C10: every parser keys its images record by the asset's own id
------------------------------------------------------------------ -/

def imagesKeyed (im : List (Str × ImageAsset)) : Prop := ∀ p ∈ im, p.2.id = p.1

theorem imagesKeyed_nil : imagesKeyed [] := by
  intro p hp
  simp at hp

theorem imagesKeyed_insert {im : List (Str × ImageAsset)} {k : Str} {v : ImageAsset}
    (h : imagesKeyed im) (hv : v.id = k) : imagesKeyed (insertAssoc im k v) := by
  induction im with
  | nil =>
    intro p hp
    rw [List.mem_singleton.1 hp]
    exact hv
  | cons q rest ih =>
    obtain ⟨k0, v0⟩ := q
    intro p hp
    simp only [insertAssoc] at hp
    by_cases hk : k0 = k
    · rw [if_pos hk] at hp
      rcases List.mem_cons.1 hp with rfl | hmem
      · rw [hv, hk]
      · exact h p (List.mem_cons_of_mem _ hmem)
    · rw [if_neg hk] at hp
      rcases List.mem_cons.1 hp with rfl | hmem
      · exact h _ (List.mem_cons_self _ _)
      · exact ih (fun q hq => h q (List.mem_cons_of_mem _ hq)) p hmem

theorem epubImagesStep_keyed (z : Zip) (manifest : List (Str × (Str × Str)))
    (resPath : Str → Str) (im : List (Str × ImageAsset)) (href : Str)
    (h : imagesKeyed im) :
    imagesKeyed (epubImagesStep z manifest resPath im href) := by
  simp only [epubImagesStep]
  rcases hf : (manifest.map Prod.snd).find? (fun v => normalize v.1 = href) with _ | mf
  · simp only [hf]
    exact h
  · simp only [hf]
    rcases hz2 : zipGet z (resPath mf.1) with _ | zf
    · simp only [hz2]
      exact h
    · simp only [hz2]
      exact imagesKeyed_insert h rfl

theorem cbzStep_keyed (acc : List (Str × ImageAsset) × List Chapter) (e : ZipEntry)
    (h : imagesKeyed acc.1) : imagesKeyed (cbzStep acc e).1 :=
  imagesKeyed_insert h rfl

theorem htmlzImagesStep_keyed (im : List (Str × ImageAsset)) (f : ZipEntry)
    (h : imagesKeyed im) : imagesKeyed (htmlzImagesStep im f) :=
  imagesKeyed_insert h rfl

theorem pdfPagesStep_keyed (render : ℕ → List ℕ)
    (acc : List (Str × ImageAsset) × List Chapter) (p : ℕ)
    (h : imagesKeyed acc.1) : imagesKeyed (pdfPagesStep render acc p).1 :=
  imagesKeyed_insert h rfl

/-- C10: every parser produces an images record in which each key equals the
stored asset's own id (the source basename or the synthesized page name); the
FB2, HTML, TXT and TXTZ parsers produce an empty images record. -/
theorem C10_parser_images_keyed :
    (∀ (px ph : Str → List Dom) (z : Zip) (m : BookModel),
        parseEPUBToModel px ph z = Except.ok m → imagesKeyed m.images) ∧
    (∀ (z : Zip) (m : BookModel),
        parseCBZToModel z = Except.ok m → imagesKeyed m.images) ∧
    (∀ (ph : Str → List Dom) (tq : Str → Option Str) (z : Zip) (m : BookModel),
        parseHTMLZToModel ph tq z = Except.ok m → imagesKeyed m.images) ∧
    (∀ (n : ℕ) (render : ℕ → List ℕ),
        imagesKeyed (parsePDFToModelAsImages n render).images) ∧
    (∀ s, (parseTXTToModel s).images = []) ∧
    (∀ (px : Str → List Dom) (s : Str), (parseFB2ToModel px s).images = []) ∧
    (∀ (ph : Str → List Dom) (tq : Str → Option Str) (s : Str),
        (parseHTMLToModel ph tq s).images = []) ∧
    (∀ (z : Zip) (m : BookModel), parseTXTZToModel z = Except.ok m → m.images = []) := by
  refine ⟨?_, ?_, ?_, ?_, ?_, ?_, ?_, ?_⟩
  · intro px ph z m h
    simp only [parseEPUBToModel] at h
    split at h
    · exact absurd h (by simp)
    · split at h
      · exact absurd h (by simp)
      · split at h
        · exact absurd h (by simp)
        · split at h
          · exact absurd h (by simp)
          · rw [← Except.ok.inj h]
            exact foldl_preserve imagesKeyed _
              (fun a b ha => epubImagesStep_keyed _ _ _ a b ha) _ _ imagesKeyed_nil
  · intro z m h
    simp only [parseCBZToModel] at h
    split at h
    · exact absurd h (by simp)
    · rw [← Except.ok.inj h]
      exact foldl_preserve (fun acc : List (Str × ImageAsset) × List Chapter =>
          imagesKeyed acc.1) cbzStep
        (fun a b ha => cbzStep_keyed a b ha) _ ([], []) imagesKeyed_nil
  · intro ph tq z m h
    simp only [parseHTMLZToModel] at h
    split at h
    · exact absurd h (by simp)
    · rw [← Except.ok.inj h]
      exact foldl_preserve imagesKeyed _
        (fun a b ha => htmlzImagesStep_keyed a b ha) _ _ imagesKeyed_nil
  · intro n render
    exact foldl_preserve (fun acc : List (Str × ImageAsset) × List Chapter =>
        imagesKeyed acc.1) (pdfPagesStep render)
      (fun a b ha => pdfPagesStep_keyed render a b ha) _ ([], []) imagesKeyed_nil
  · intro s
    rfl
  · intro px s
    rfl
  · intro ph tq s
    rfl
  · intro z m h
    simp only [parseTXTZToModel] at h
    split at h
    · exact absurd h (by simp)
    · rw [← Except.ok.inj h]

def epubWitnessPx : Str → List Dom := fun s =>
  if s = "C".data
  then [Dom.elem "rootfile".data [("full-path".data, "OPS/content.opf".data)] []]
  else [Dom.elem "manifest".data []
          [Dom.elem "item".data [("id".data, "c1".data), ("href".data, "ch1.html".data),
             ("media-type".data, "application/xhtml+xml".data)] [],
           Dom.elem "item".data [("id".data, "im1".data), ("href".data, "img/pic.png".data),
             ("media-type".data, "image/png".data)] []],
        Dom.elem "spine".data []
          [Dom.elem "itemref".data [("idref".data, "c1".data)] []]]

def epubWitnessZip : Zip :=
  [{ name := "META-INF/container.xml".data, text := "C".data, bytes := [] },
   { name := "OPS/content.opf".data, text := "O".data, bytes := [] },
   { name := "OPS/ch1.html".data,
     text := "<p>hi <img src=\"img/pic.png\"/></p>".data, bytes := [] },
   { name := "OPS/img/pic.png".data, text := [], bytes := [9] }]

set_option maxRecDepth 8000 in
/-- Witness for C10: each parser applied to a concrete input. -/
theorem C10_parser_images_keyed_witness :
    (∃ m, parseEPUBToModel epubWitnessPx parseHtmlFragment epubWitnessZip =
        Except.ok m ∧ imagesKeyed m.images) ∧
    (∃ m, parseCBZToModel [{ name := "a.png".data, text := [], bytes := [7] }] =
        Except.ok m ∧ imagesKeyed m.images) ∧
    (∃ m, parseHTMLZToModel parseHtmlFragment (fun _ => none)
        [{ name := "index.html".data, text := "<p>x</p>".data, bytes := [] },
         { name := "b.png".data, text := [], bytes := [5] }] = Except.ok m ∧
      imagesKeyed m.images) ∧
    imagesKeyed (parsePDFToModelAsImages 2 (fun _ => [])).images ∧
    (parseTXTToModel "hi".data).images = [] ∧
    (parseFB2ToModel (fun _ => []) "x".data).images = [] ∧
    (parseHTMLToModel parseHtmlFragment (fun _ => none) "<p>y</p>".data).images = [] ∧
    (∃ m, parseTXTZToModel [{ name := "a.txt".data, text := "z".data, bytes := [] }] =
        Except.ok m ∧ m.images = []) := by
  have h := C10_parser_images_keyed
  have h1 := h.1 epubWitnessPx parseHtmlFragment epubWitnessZip
  have h2 := h.2.1 [{ name := "a.png".data, text := [], bytes := [7] }]
  have h3 := h.2.2.1 parseHtmlFragment (fun _ => none)
    [{ name := "index.html".data, text := "<p>x</p>".data, bytes := [] },
     { name := "b.png".data, text := [], bytes := [5] }]
  have h8 := h.2.2.2.2.2.2.2 [{ name := "a.txt".data, text := "z".data, bytes := [] }]
  exact ⟨⟨_, rfl, h1 _ rfl⟩, ⟨_, rfl, h2 _ rfl⟩, ⟨_, rfl, h3 _ rfl⟩,
    h.2.2.2.1 2 (fun _ => []), h.2.2.2.2.1 _, h.2.2.2.2.2.1 _ _,
    h.2.2.2.2.2.2.1 _ _ _, ⟨_, rfl, h8 _ rfl⟩⟩

end FileFlip
